import Mathlib

/-!
Verification of the casc-rs library (a read-only reader for Blizzard CASC
archives) against its natural-language specification.

The Rust sources are shallowly embedded: byte buffers become `List Nat`
(each element a byte value), machine integers become `Nat`/`Int` with
explicit reductions `% 2^w` where overflow can occur, fallible operations
return `Except`, and the unbounded `while` loops of the source are given
an explicit fuel parameter.
-/

namespace CascRs

/-- Byte buffers: lists of byte values (each `< 256` where it matters). -/
abbrev Bytes := List Nat

/-- The modulus of Rust's `u64`. -/
def U64 : Nat := 2 ^ 64

/-- The modulus of Rust's `u32`. -/
def U32 : Nat := 2 ^ 32

/-- Rust's `as u64` cast applied to a (possibly negative) mathematical
integer: two's-complement wraparound into `[0, 2^64)`. -/
def intToU64 (i : Int) : Nat := (i % (U64 : Int)).toNat

/-- Rust's `as u32` cast of a (possibly negative) integer. -/
def intToU32 (i : Int) : Nat := (i % (U32 : Int)).toNat

/-! ### Key mapping table (IDX) header validation — `CascKeyMappingTable::new`

The source rejects the header with `FileCorrupted` exactly when

    encoded_size_length != 4 && encoding_key_length != 9 && storage_offset_length != 5

holds (a conjunction of the three disequalities, in this order). -/

/-- Embeds the condition of the source's corruption check in
`CascKeyMappingTable::new`: `true` exactly when the source returns the
`FileCorrupted` error for these three header fields. -/
def idxSizeCheckFails (encodedSizeLength storageOffsetLength encodingKeyLength : Nat) : Bool :=
  encodedSizeLength != 4 && encodingKeyLength != 9 && storageOffsetLength != 5

/-! ### IDX post-header alignment — `CascKeyMappingTable::new`

After the header the source computes `(pos + 0x17) & 0xFFFFFFF0` over `u64`
positions; the literal mask has its upper 32 bits clear. -/

/-- Embeds the source's alignment computation: the new stream position
sought to after reading the IDX header, given the current position `pos`
(a `u64`). -/
def idxAlignNewPos (pos : Nat) : Nat := ((pos + 0x17) % U64) &&& 0xFFFFFFF0

/-- The 64-bit mask `~0x0F` on `u64`, i.e. `0xFFFFFFFFFFFFFFF0`. -/
def mask64Not0F : Nat := U64 - 0x10

/-! ### Seeking — `impl Seek for CascFile`

The source sets the position as follows, with no error path:
`Start(o)` → `o`; `Current(o)` → `(position as i64 + o) as u64`;
`End(o)` → `(size as i64 - o) as u64`. -/

/-- Rust's `std::io::SeekFrom`. -/
inductive SeekFrom where
  | start (offset : Nat)
  | current (offset : Int)
  | fromEnd (offset : Int)
deriving Repr, DecidableEq

/-- Embeds `impl Seek for CascFile`: the new `internal_position` computed
from the file `size`, the current position `pos`, and the seek target.
The `i64`/`u64` casts of the source compose into wraparound modulo `2^64`. -/
def cascFileSeekPos (size pos : Nat) : SeekFrom → Nat
  | .start offset => offset % U64
  | .current offset => intToU64 ((pos : Int) + offset)
  | .fromEnd offset => intToU64 ((size : Int) - offset)

/-! ### IDX record decoding — `CascKeyMappingTableEntry::new` -/

/-- An entry of a CASC key mapping table, as in the source. -/
structure CascKeyMappingTableEntry where
  encoding_key : Bytes
  offset : Nat
  size : Nat
  archive_index : Nat
deriving Repr, DecidableEq

/-- The source's first loop: for `i in 0..5`, shift the accumulator left by
8 and or in `buffer[i + encoding_key_length]` (u64 arithmetic). -/
def packedOffsetAndIndex (buffer : Bytes) (encodingKeyLength : Nat) : Nat :=
  [0, 1, 2, 3, 4].foldl
    (fun acc i => ((acc <<< 8) ||| buffer.getD (i + encodingKeyLength) 0) % U64) 0

/-- The source's second loop: for `i in (0..4).rev()`, shift the
accumulator left by 8 and or in
`buffer[i + encoding_key_length + storage_offset_length]` (u32 arithmetic). -/
def idxEntrySizeField (buffer : Bytes) (encodingKeyLength storageOffsetLength : Nat) : Nat :=
  [3, 2, 1, 0].foldl
    (fun acc i =>
      ((acc <<< 8) ||| buffer.getD (i + encodingKeyLength + storageOffsetLength) 0) % U32) 0

/-- The `file_offset_mask` computed by `CascKeyMappingTable::new`, namely
`(1 << file_offset_bits) - 1`. The source computes this in `i32` before
widening to `u64`, so for `file_offset_bits ≥ 31` the shift overflows
`i32` (a panic in debug builds, low-bits wraparound in release) and the
source has no single well-defined value; this embedding is therefore
faithful only on the domain `file_offset_bits ≤ 30`, where the `i32`
computation is exact, and the C6 theorems stay inside that domain (the
typical on-disk value is 30). -/
def fileOffsetMaskFromBits (fileOffsetBits : Nat) : Nat := (1 <<< fileOffsetBits) - 1

/-- Embeds `CascKeyMappingTableEntry::new`: decodes one fixed-size IDX
record from `buffer` given the table's key/offset field widths, its
`file_offset_bits` and its precomputed `file_offset_mask`. -/
def cascKeyMappingTableEntryNew (buffer : Bytes)
    (encodingKeyLength storageOffsetLength fileOffsetBits fileOffsetMask : Nat) :
    CascKeyMappingTableEntry :=
  let packed := packedOffsetAndIndex buffer encodingKeyLength
  { encoding_key := buffer.take encodingKeyLength
    offset := packed &&& fileOffsetMask
    size := idxEntrySizeField buffer encodingKeyLength storageOffsetLength
    archive_index := (packed >>> fileOffsetBits) % U32 }

/-- Spec-side value for C6: the 40-bit big-endian integer formed from
bytes 9..14 of an IDX record, as the claim words it ("with P the 40-bit
big-endian integer formed from bytes 9..14"). -/
def specIdxPacked (buffer : Bytes) : Nat :=
  buffer.getD 9 0 * 2 ^ 32 + buffer.getD 10 0 * 2 ^ 24 +
    buffer.getD 11 0 * 2 ^ 16 + buffer.getD 12 0 * 2 ^ 8 + buffer.getD 13 0

/-- Spec-side value for C6: the 32-bit little-endian integer formed from
bytes 14..18 of an IDX record, as the claim words it. -/
def specIdxSizeLE (buffer : Bytes) : Nat :=
  buffer.getD 14 0 + buffer.getD 15 0 * 2 ^ 8 +
    buffer.getD 16 0 * 2 ^ 16 + buffer.getD 17 0 * 2 ^ 24

/-! ### The frame-cache read stream — `CascFile`

`CascFile::read` walks spans and frames, decodes one frame at a time into
a cache and copies bytes out of that cache. The archive file behind each
span's reader is modelled as a byte list; reads happen at explicit
positions (the source seeks to `frame.archive_offset` before each frame).
ZLib decompression is an external library call; it is modelled as a
function parameter `zlib : Bytes → Option Bytes` (`none` models a
decompression error from `read_to_end`). -/

/-- Errors surfaced by the embedded stream operations. `outOfFuel` is an
artifact of bounding the source's unbounded `while` loop and is never
produced when enough fuel is supplied; `sliceOutOfBounds` models a Rust
slice-indexing panic. -/
inductive StreamErr where
  | streamClosed
  | spanNotFound
  | frameNotFound
  | ioEof
  | zlibFailed
  | unsupportedBlockType
  | sliceOutOfBounds
  | outOfFuel
  | invalidUtf8
deriving Repr, DecidableEq

/-- `CascFileFrame` of the source: one frame of a span. -/
structure CascFileFrame where
  virtual_start_offset : Nat
  virtual_end_offset : Nat
  archive_offset : Nat
  encoded_size : Nat
  content_size : Nat
deriving Repr, DecidableEq

/-- `CascFileSpan` of the source; `archive` is the contents of the file
behind the span's reader. -/
structure CascFileSpan where
  archive : Bytes
  virtual_start_offset : Nat
  virtual_end_offset : Nat
  archive_offset : Nat
  frames : List CascFileFrame
deriving Repr, DecidableEq

/-- The `CascFile` stream state of the source. -/
structure CascFile where
  spans : List CascFileSpan
  internal_size : Nat
  internal_position : Nat
  is_open : Bool
  cache : Option Bytes
  cache_start_position : Nat
  cache_end_position : Nat
deriving Repr, DecidableEq

/-- `CascFile::new`: fresh stream over the given spans and size. -/
def cascFileNew (spans : List CascFileSpan) (size : Nat) : CascFile :=
  { spans := spans
    internal_size := size
    internal_position := 0
    is_open := true
    cache := none
    cache_start_position := 0
    cache_end_position := 0 }

/-- `CascFile::size`. -/
def cascFileSize (s : CascFile) : Nat := s.internal_size

/-- Applying a seek to the stream state (`impl Seek for CascFile`; the
seek itself never errors). -/
def cascFileSeek (s : CascFile) (target : SeekFrom) : CascFile :=
  { s with internal_position := cascFileSeekPos s.internal_size s.internal_position target }

/-- `BlockTableEncoderType` and its `From<u8>` conversion. -/
inductive BlockTableEncoderType where
  | raw
  | zlibCompressed
  | encrypted
  | unknown (byte : Nat)
deriving Repr, DecidableEq

/-- `impl From<u8> for BlockTableEncoderType`. -/
def blockTableEncoderTypeFrom (byte : Nat) : BlockTableEncoderType :=
  if byte = 0x4E then .raw
  else if byte = 0x5A then .zlibCompressed
  else if byte = 0x45 then .encrypted
  else .unknown byte

/-- `read_exact` of `n` bytes at position `pos` of an in-memory byte
source: succeeds with exactly the `n` bytes iff they are all present. -/
def readExact (archive : Bytes) (pos n : Nat) : Except StreamErr Bytes :=
  if pos + n ≤ archive.length then .ok ((archive.drop pos).take n) else .error .ioEof

/-- The frame-decode section of `CascFile::read`: seek the span reader to
`frame.archive_offset`, read the one-byte encoder tag, then produce the
new cache contents per the tag. The ZLib branch computes
`frame.encoded_size as usize - 1` with `usize` wraparound, as the source
does. -/
def loadFrameCache (zlib : Bytes → Option Bytes) (archive : Bytes) (frame : CascFileFrame) :
    Except StreamErr Bytes :=
  match readExact archive frame.archive_offset 1 with
  | .error e => .error e
  | .ok tagBytes =>
    match blockTableEncoderTypeFrom (tagBytes.getD 0 0) with
    | .raw => readExact archive (frame.archive_offset + 1) frame.content_size
    | .zlibCompressed =>
      match readExact archive (frame.archive_offset + 1) ((frame.encoded_size + (U64 - 1)) % U64) with
      | .error e => .error e
      | .ok encoded =>
        match zlib encoded with
        | some decoded => .ok decoded
        | none => .error .zlibFailed
    | _ => .error .unsupportedBlockType

/-- The span search of `CascFile::read`: first span whose virtual range
contains `pos`. -/
def findSpan (spans : List CascFileSpan) (pos : Nat) : Option CascFileSpan :=
  spans.find? fun x =>
    decide (x.virtual_start_offset ≤ pos) && decide (pos < x.virtual_end_offset)

/-- The frame search of `CascFile::read`: first frame of the span whose
virtual range contains `pos`. -/
def findFrame (frames : List CascFileFrame) (pos : Nat) : Option CascFileFrame :=
  frames.find? fun x =>
    decide (x.virtual_start_offset ≤ pos) && decide (pos < x.virtual_end_offset)

/-- The cache-hit section at the top of the `while` loop of
`CascFile::read`: when a cache is loaded and its window contains
`readStartPos`, copy `min(to_read, min(cache_available, buf_available))`
bytes out of it (a Rust panic on a bad cache slice becomes
`sliceOutOfBounds`), advance the position with `seek(Current(n))` and the
buffer offset; otherwise pass the loop state through unchanged. Returns
`(acc, toRead, stream, offset)`. -/
def cacheStep (s : CascFile) (bufLen readStartPos toRead offset : Nat) (acc : Bytes) :
    Except StreamErr (Bytes × Nat × CascFile × Nat) :=
  let cacheAvailable := s.cache_end_position - readStartPos
  match s.cache with
  | some cache =>
    if cacheAvailable > 0 ∧ s.cache_start_position ≤ readStartPos ∧
        readStartPos < s.cache_end_position then
      let p := readStartPos - s.cache_start_position
      let bufAvailable := bufLen - offset
      let n := min toRead (min cacheAvailable bufAvailable)
      if p + n ≤ cache.length then
        .ok (acc ++ (cache.drop p).take n, toRead - n,
          cascFileSeek s (.current (n : Int)), offset + n)
      else .error .sliceOutOfBounds
    else .ok (acc, toRead, s, offset)
  | none => .ok (acc, toRead, s, offset)

/-- The frame-location-and-decode section at the bottom of the `while`
loop of `CascFile::read`: find the span and frame containing `rsp`, set
the cache window from the frame, decode the frame and install it as the
new cache. -/
def frameStep (zlib : Bytes → Option Bytes) (s : CascFile) (rsp : Nat) :
    Except StreamErr CascFile :=
  match findSpan s.spans rsp with
  | none => .error .spanNotFound
  | some span =>
    match findFrame span.frames rsp with
    | none => .error .frameNotFound
    | some frame =>
      match loadFrameCache zlib span.archive frame with
      | .error e => .error e
      | .ok c =>
        .ok { s with
          cache_start_position := frame.virtual_start_offset
          cache_end_position := frame.virtual_start_offset + frame.content_size
          cache := some c }

/-- The `while to_read > 0` loop of `CascFile::read`. Loop state: the
stream `s`, the local `read_start_pos`, the remaining request `toRead`,
the write offset into the caller's buffer; `acc` accumulates the bytes
written to the caller's buffer (so `acc.length = offset` throughout, and
`offset` equals the source's `consumed`). Returns the written bytes, the
`consumed` count the source returns, and the final stream state. -/
def cascFileReadLoop (zlib : Bytes → Option Bytes) :
    Nat → CascFile → Nat → Nat → Nat → Nat → Bytes → Except StreamErr (Bytes × Nat × CascFile)
  | 0, _, _, _, _, _, _ => .error .outOfFuel
  | fuel + 1, s, bufLen, readStartPos, toRead, offset, acc =>
    if toRead = 0 then .ok (acc, offset, s)
    else
      match cacheStep s bufLen readStartPos toRead offset acc with
      | .error e => .error e
      | .ok (acc', toRead', s', offset') =>
        if toRead' = 0 then .ok (acc', offset', s')
        else if s'.internal_size ≤ s'.internal_position then .ok (acc', offset', s')
        else
          match frameStep zlib s' s'.internal_position with
          | .error e => .error e
          | .ok s₃ =>
            cascFileReadLoop zlib fuel s₃ bufLen s'.internal_position toRead' offset' acc'

/-- `CascFile::read` with a caller buffer of length `bufLen`, with
explicit fuel for the loop. -/
def cascFileRead (zlib : Bytes → Option Bytes) (fuel : Nat) (s : CascFile) (bufLen : Nat) :
    Except StreamErr (Bytes × Nat × CascFile) :=
  if s.is_open = false then .error .streamClosed
  else if s.internal_position ≥ s.internal_size then .ok ([], 0, s)
  else cascFileReadLoop zlib fuel s bufLen s.internal_position bufLen 0 []

/-- `CascFile::read` with enough fuel for any request of length `bufLen`
(the loop performs at most `bufLen + 1` iterations; see the loop lemma). -/
def cascFileReadRun (zlib : Bytes → Option Bytes) (s : CascFile) (bufLen : Nat) :
    Except StreamErr (Bytes × Nat × CascFile) :=
  cascFileRead zlib (2 * bufLen + 2) s bufLen

/-- The slice `[p, p+n)` of the logical file contents. -/
def readSlice (content : Bytes) (p n : Nat) : Bytes := (content.drop p).take n

/-- Does the current cache window contain `pos` (the guard of the
cache-hit branch)? -/
def cacheCovers (s : CascFile) (pos : Nat) : Bool :=
  match s.cache with
  | some _ =>
    decide (s.cache_end_position - pos > 0) && decide (s.cache_start_position ≤ pos) &&
      decide (pos < s.cache_end_position)
  | none => false

/-- Validity of the cache with respect to the logical contents: if a cache
is loaded, its window length matches the buffer and its bytes agree with
`content`. -/
def cacheValid (s : CascFile) (content : Bytes) : Bool :=
  match s.cache with
  | none => true
  | some c =>
    (s.cache_end_position == s.cache_start_position + c.length) &&
      decide (∀ i, i < c.length → c.getD i 0 = content.getD (s.cache_start_position + i) 0)

/-- Frame lookup well-formedness at one position: the span/frame search
succeeds, the frame's window is consistent, and decoding the frame yields
exactly its `content_size` bytes, agreeing with `content`. -/
def frameOkAt (zlib : Bytes → Option Bytes) (spans : List CascFileSpan) (content : Bytes)
    (pos : Nat) : Bool :=
  match findSpan spans pos with
  | none => false
  | some span =>
    match findFrame span.frames pos with
    | none => false
    | some frame =>
      decide (frame.virtual_start_offset ≤ pos) &&
        decide (pos < frame.virtual_end_offset) &&
        (frame.virtual_end_offset == frame.virtual_start_offset + frame.content_size) &&
        match loadFrameCache zlib span.archive frame with
        | .error _ => false
        | .ok c =>
          (c.length == frame.content_size) &&
            decide (∀ i, i < c.length →
              c.getD i 0 = content.getD (frame.virtual_start_offset + i) 0)

/-- Well-formedness of an open stream with logical contents `content`:
its size matches, fits `u64`, and every in-range position resolves to a
consistent decodable frame. This packages the layout invariants that
`CascStorage::open_file` establishes (spec §3: frames cover contiguous
non-overlapping virtual ranges whose `content_size`s sum to the file
size). -/
def cascFileWF (zlib : Bytes → Option Bytes) (s : CascFile) (content : Bytes) : Prop :=
  s.internal_size = content.length ∧ s.internal_size < U64 ∧
    ∀ pos, pos < s.internal_size → frameOkAt zlib s.spans content pos = true

/-! ### Standard base64 and the file-listing / file-opening paths

`SpanInfo::new_with_encoding_key` stores `BASE64_STANDARD.encode(key)`;
`CascKeyMappingTable::new` keys the shared map with
`BASE64_STANDARD.encode(entry.encoding_key)`. The `base64` crate's
standard engine is RFC 4648 base64 with `=` padding; it is modelled
below, producing the byte values of the encoded characters. -/

/-- Byte value of the standard base64 alphabet character at index `n`
(`A–Z a–z 0–9 + /`). -/
def b64Char (n : Nat) : Nat :=
  if n < 26 then 65 + n
  else if n < 52 then 97 + (n - 26)
  else if n < 62 then 48 + (n - 52)
  else if n = 62 then 43
  else 47

/-- Standard base64 with `=` (byte 61) padding, as
`BASE64_STANDARD.encode` produces. -/
def base64Encode : Bytes → List Nat
  | [] => []
  | [a] => [b64Char (a / 4), b64Char (a % 4 * 16), 61, 61]
  | [a, b] => [b64Char (a / 4), b64Char (a % 4 * 16 + b / 16), b64Char (b % 16 * 4), 61]
  | a :: b :: c :: rest =>
    b64Char (a / 4) :: b64Char (a % 4 * 16 + b / 16) :: b64Char (b % 16 * 4 + c / 64) ::
      b64Char (c % 64) :: base64Encode rest

/-- `SpanInfo` of the source (names and table keys carry the byte values
of their base64 strings). -/
structure SpanInfo where
  content_key : Option Bytes
  encoding_key : Bytes
  size : Option Nat
  base64_content_key : Option (List Nat)
  base64_encoding_key : List Nat
deriving Repr, DecidableEq

/-- `SpanInfo::new_with_encoding_key`. -/
def spanInfoNewWithEncodingKey (eKey : Bytes) : SpanInfo :=
  { content_key := none
    encoding_key := eKey
    size := none
    base64_content_key := none
    base64_encoding_key := base64Encode eKey }

/-- `Entry` of the source (a file entry: name and ordered spans). -/
structure Entry where
  name : Bytes
  spans : List SpanInfo
deriving Repr, DecidableEq

/-- `Entry::new_with_spans`. -/
def entryNewWithSpans (name : Bytes) (spans : List SpanInfo) : Entry :=
  { name := name, spans := spans }

/-- `CascFileInfo` of the source. -/
structure CascFileInfo where
  file_name : Bytes
  file_size : Int
  is_local : Bool
deriving Repr, DecidableEq

/-- The shared IDX map (`HashMap<String, CascKeyMappingTableEntry>`)
modelled as an association list; `entriesGet` is `HashMap::get`. -/
def entriesGet (entries : List (List Nat × CascKeyMappingTableEntry)) (key : List Nat) :
    Option CascKeyMappingTableEntry :=
  (entries.find? fun kv => kv.1 == key).map (·.2)

/-- The per-entry span loop of `CascStorage::load_files`: add each
resolvable span's IDX `size` to the running file size; at the first
unresolvable span mark the file non-local with size 0 and stop. -/
def loadFilesSpanLoop (entries : List (List Nat × CascKeyMappingTableEntry))
    (info : CascFileInfo) : List SpanInfo → CascFileInfo
  | [] => info
  | span :: rest =>
    match entriesGet entries span.base64_encoding_key with
    | some entry1 =>
      loadFilesSpanLoop entries
        { info with file_size := info.file_size + (entry1.size : Int) } rest
    | none => { info with is_local := false, file_size := 0 }

/-- `CascStorage::load_files`: one `CascFileInfo` per root-handler file
entry, starting from `(name, 0, true)`. -/
def loadFiles (entries : List (List Nat × CascKeyMappingTableEntry))
    (fileEntries : List Entry) : List CascFileInfo :=
  fileEntries.map fun e => loadFilesSpanLoop entries ⟨e.name, 0, true⟩ e.spans

/-- The span-resolution loop of `CascStorage::open_file`. The body of the
`Some` branch (opening the archive, consuming the span header, checking
the BLTE signature and materializing the frame list) performs file I/O;
it is abstracted as the `loadSpan` parameter, which receives the IDX
entry and the running virtual offset and yields the built span and the
advanced virtual offset. Spans whose key misses the IDX map are skipped,
exactly as in the source. -/
def openFileSpans (entries : List (List Nat × CascKeyMappingTableEntry))
    (loadSpan : CascKeyMappingTableEntry → Nat → Except StreamErr (CascFileSpan × Nat)) :
    List SpanInfo → Nat → Except StreamErr (List CascFileSpan × Nat)
  | [], virtualOffset => .ok ([], virtualOffset)
  | span :: rest, virtualOffset =>
    match entriesGet entries span.base64_encoding_key with
    | some e =>
      match loadSpan e virtualOffset with
      | .error err => .error err
      | .ok (newSpan, virtualOffset') =>
        match openFileSpans entries loadSpan rest virtualOffset' with
        | .error err => .error err
        | .ok (spans, vo) => .ok (newSpan :: spans, vo)
    | none => openFileSpans entries loadSpan rest virtualOffset

/-- `CascStorage::open_file` after the entry lookup: build the spans and
return `CascFile::new(spans, virtual_offset)`. -/
def openFile (entries : List (List Nat × CascKeyMappingTableEntry))
    (loadSpan : CascKeyMappingTableEntry → Nat → Except StreamErr (CascFileSpan × Nat))
    (entry : Entry) : Except StreamErr CascFile :=
  match openFileSpans entries loadSpan entry.spans 0 with
  | .error e => .error e
  | .ok (spans, virtualOffset) => .ok (cascFileNew spans virtualOffset)

/-! ### TVFS path-table parsing — `TVFSRootHandler`

The three table readers of the handler are in-memory `Cursor`s; a cursor
is a byte list with a position (which a seek may place past the end; a
subsequent read then fails). -/

/-- An in-memory `Cursor<Vec<u8>>`. -/
structure ByteCursor where
  data : Bytes
  pos : Nat
deriving Repr, DecidableEq

/-- `peek_byte`: read one byte and seek back; EOF at or past the end. -/
def peekByte (cur : ByteCursor) : Except StreamErr Nat :=
  if cur.pos < cur.data.length then .ok (cur.data.getD cur.pos 0) else .error .ioEof

/-- `skip(1)` on a cursor (`seek(Current(1))`; may move past the end). -/
def skip1 (cur : ByteCursor) : ByteCursor := { cur with pos := cur.pos + 1 }

/-- `read_i32::<BigEndian>` on a cursor: four bytes big-endian,
interpreted as a two's-complement `i32`. -/
def readI32BE (cur : ByteCursor) : Except StreamErr (Int × ByteCursor) :=
  if cur.pos + 4 ≤ cur.data.length then
    .ok (
      (fun w => if w < 2 ^ 31 then (w : Int) else (w : Int) - 2 ^ 32)
        (cur.data.getD cur.pos 0 * 2 ^ 24 + cur.data.getD (cur.pos + 1) 0 * 2 ^ 16 +
          cur.data.getD (cur.pos + 2) 0 * 2 ^ 8 + cur.data.getD (cur.pos + 3) 0),
      { cur with pos := cur.pos + 4 })
  else .error .ioEof

/-- `read_exact` of `n` bytes on a cursor (an empty read always
succeeds, as in Rust). -/
def cursorReadExact (cur : ByteCursor) (n : Nat) : Except StreamErr (Bytes × ByteCursor) :=
  if n = 0 then .ok ([], cur)
  else if cur.pos + n ≤ cur.data.length then
    .ok ((cur.data.drop cur.pos).take n, { cur with pos := cur.pos + n })
  else .error .ioEof

/-- Is a byte a UTF-8 continuation byte (`0x80..=0xBF`)? -/
def isCont (b : Nat) : Bool := decide (0x80 ≤ b) && decide (b ≤ 0xBF)

/-- The lead-byte length table of `read_chars` (`0x00..=0x7F` → 1,
`0xC0..=0xDF` → 2, `0xE0..=0xEF` → 3, `0xF0..=0xF7` → 4, otherwise
invalid data). -/
def charLen (b : Nat) : Option Nat :=
  if b ≤ 0x7F then some 1
  else if 0xC0 ≤ b ∧ b ≤ 0xDF then some 2
  else if 0xE0 ≤ b ∧ b ≤ 0xEF then some 3
  else if 0xF0 ≤ b ∧ b ≤ 0xF7 then some 4
  else none

/-- Validity of one encoded code point as `std::str::from_utf8` checks it
(standard UTF-8: no overlong forms, no surrogates, max U+10FFFF). -/
def validUtf8Char (bytes : Bytes) : Bool :=
  match bytes with
  | [b0] => decide (b0 ≤ 0x7F)
  | [b0, b1] => decide (0xC2 ≤ b0) && decide (b0 ≤ 0xDF) && isCont b1
  | [b0, b1, b2] =>
    ((b0 == 0xE0) && decide (0xA0 ≤ b1) && decide (b1 ≤ 0xBF) ||
      decide (0xE1 ≤ b0) && decide (b0 ≤ 0xEC) && isCont b1 ||
      (b0 == 0xED) && decide (0x80 ≤ b1) && decide (b1 ≤ 0x9F) ||
      decide (0xEE ≤ b0) && decide (b0 ≤ 0xEF) && isCont b1) && isCont b2
  | [b0, b1, b2, b3] =>
    ((b0 == 0xF0) && decide (0x90 ≤ b1) && decide (b1 ≤ 0xBF) ||
      decide (0xF1 ≤ b0) && decide (b0 ≤ 0xF3) && isCont b1 ||
      (b0 == 0xF4) && decide (0x80 ≤ b1) && decide (b1 ≤ 0x8F)) && isCont b2 && isCont b3
  | _ => false

/-- The loop of `read_chars(count)`: stop at EOF on a lead byte (then
return the characters read so far), fail on an invalid lead byte, an
early EOF inside a character, or invalid UTF-8. The accumulated name is
kept as its UTF-8 bytes (what `push_str` appends to the builder). -/
def readCharsLoop : Nat → ByteCursor → Bytes → Except StreamErr (Bytes × ByteCursor)
  | 0, cur, acc => .ok (acc, cur)
  | count + 1, cur, acc =>
    if cur.pos < cur.data.length then
      match charLen (cur.data.getD cur.pos 0) with
      | none => .error .invalidUtf8
      | some len =>
        if cur.pos + len ≤ cur.data.length then
          if validUtf8Char ((cur.data.drop cur.pos).take len) then
            readCharsLoop count { cur with pos := cur.pos + len }
              (acc ++ (cur.data.drop cur.pos).take len)
          else .error .invalidUtf8
        else .error .ioEof
    else .ok (acc, cur)

/-- `read_chars(count)`. -/
def readChars (cur : ByteCursor) (count : Nat) : Except StreamErr (Bytes × ByteCursor) :=
  readCharsLoop count cur []

/-- `PathTableNodeFlags` bit values. -/
def pathSeparatorPre : Nat := 0x0001

/-- `PATH_SEPARATOR_POST`. -/
def pathSeparatorPost : Nat := 0x0002

/-- `IS_NODE_VALUE`. -/
def isNodeValue : Nat := 0x0004

/-- `PathTableNodeFlags::has_flag`. -/
def hasFlag (flags flag : Nat) : Bool := flags &&& flag == flag

/-- A parsed path-table node. -/
structure PathTableNode where
  name : Bytes
  flags : Nat
  value : Option Int
deriving Repr, DecidableEq

/-- Final step of `parse_path_node`: if the pending byte is `0xFF`,
consume it, read the big-endian `i32` node value and set `IS_NODE_VALUE`;
otherwise set `PATH_SEPARATOR_POST` (again). -/
def pathNodeStep4 (name : Bytes) (flags3 buf3 : Nat) (cur3 : ByteCursor) :
    Except StreamErr (PathTableNode × ByteCursor) :=
  if buf3 = 0xFF then
    match readI32BE (skip1 cur3) with
    | .error e => .error e
    | .ok (v, cur4) => .ok (⟨name, flags3 ||| isNodeValue, some v⟩, cur4)
  else .ok (⟨name, flags3 ||| pathSeparatorPost, none⟩, cur3)

/-- Third step of `parse_path_node`: a pending `0x00` byte sets
`PATH_SEPARATOR_POST`, is consumed, and the next byte is peeked. -/
def pathNodeStep3 (flags1 : Nat) (name : Bytes) (buf2 : Nat) (cur2 : ByteCursor) :
    Except StreamErr (PathTableNode × ByteCursor) :=
  if buf2 = 0 then
    match peekByte (skip1 cur2) with
    | .error e => .error e
    | .ok b3 => pathNodeStep4 name (flags1 ||| pathSeparatorPost) b3 (skip1 cur2)
  else pathNodeStep4 name flags1 buf2 cur2

/-- Second step of `parse_path_node`: a pending byte `< 0x7F` (and not
`0xFF`) is a name length; consume it, read that many UTF-8 characters and
peek again. -/
def pathNodeStep2 (flags1 buf1 : Nat) (cur1 : ByteCursor) :
    Except StreamErr (PathTableNode × ByteCursor) :=
  if buf1 < 0x7F ∧ buf1 ≠ 0xFF then
    match readChars (skip1 cur1) buf1 with
    | .error e => .error e
    | .ok (name, cur2) =>
      match peekByte cur2 with
      | .error e => .error e
      | .ok b2 => pathNodeStep3 flags1 name b2 cur2
  else pathNodeStep3 flags1 [] buf1 cur1

/-- `TVFSRootHandler::parse_path_node` on the path-table cursor: peek the
first byte; a `0x00` sets `PATH_SEPARATOR_PRE`, is consumed and re-peeked;
then steps 2–4. -/
def parsePathNode (cur0 : ByteCursor) : Except StreamErr (PathTableNode × ByteCursor) :=
  match peekByte cur0 with
  | .error e => .error e
  | .ok b0 =>
    if b0 = 0 then
      match peekByte (skip1 cur0) with
      | .error e => .error e
      | .ok b1 => pathNodeStep2 pathSeparatorPre b1 (skip1 cur0)
    else pathNodeStep2 0 b0 cur0

/-- The TVFS handler state the parse traversal works on: the path-table
cursor, the in-memory VFS and CFT tables, the header's
`encoding_key_size` and `cft_table_size`, and the accumulated file-entry
map (modelled as a list; insertion order is irrelevant to the claims). -/
structure TVFSState where
  pathCur : ByteCursor
  vfsData : Bytes
  cftData : Bytes
  encodingKeySize : Nat
  cftTableSize : Nat
  fileEntries : List Entry
deriving Repr, DecidableEq

/-- `TVFSRootHandler::read_variable_size_int`: a big-endian integer whose
byte width is chosen from `data_size`. -/
def readVariableSizeInt (cur : ByteCursor) (dataSize : Nat) :
    Except StreamErr (Nat × ByteCursor) :=
  if dataSize > 0xFFFFFF then
    if cur.pos + 4 ≤ cur.data.length then
      .ok (cur.data.getD cur.pos 0 * 2 ^ 24 + cur.data.getD (cur.pos + 1) 0 * 2 ^ 16 +
        cur.data.getD (cur.pos + 2) 0 * 2 ^ 8 + cur.data.getD (cur.pos + 3) 0,
        { cur with pos := cur.pos + 4 })
    else .error .ioEof
  else if dataSize > 0xFFFF then
    if cur.pos + 3 ≤ cur.data.length then
      .ok (cur.data.getD cur.pos 0 * 2 ^ 16 + cur.data.getD (cur.pos + 1) 0 * 2 ^ 8 +
        cur.data.getD (cur.pos + 2) 0, { cur with pos := cur.pos + 3 })
    else .error .ioEof
  else if dataSize > 0xFF then
    if cur.pos + 2 ≤ cur.data.length then
      .ok (cur.data.getD cur.pos 0 * 2 ^ 8 + cur.data.getD (cur.pos + 1) 0,
        { cur with pos := cur.pos + 2 })
    else .error .ioEof
  else
    if cur.pos + 1 ≤ cur.data.length then
      .ok (cur.data.getD cur.pos 0, { cur with pos := cur.pos + 1 })
    else .error .ioEof

/-- The span loop of `TVFSRootHandler::add_entry`: per span, read and
discard two big-endian `i32`s, read the variable-size CFT offset, seek
the CFT cursor there and read `encoding_key_size` bytes into a new
`SpanInfo`. -/
def addEntrySpans (cft : Bytes) (ksize cftSize : Nat) :
    Nat → ByteCursor → Except StreamErr (List SpanInfo × ByteCursor)
  | 0, vcur => .ok ([], vcur)
  | k + 1, vcur =>
    match readI32BE vcur with
    | .error e => .error e
    | .ok (_, vcur1) =>
      match readI32BE vcur1 with
      | .error e => .error e
      | .ok (_, vcur2) =>
        match readVariableSizeInt vcur2 cftSize with
        | .error e => .error e
        | .ok (cftOffset, vcur3) =>
          match cursorReadExact ⟨cft, cftOffset⟩ ksize with
          | .error e => .error e
          | .ok (keyBytes, _) =>
            match addEntrySpans cft ksize cftSize k vcur3 with
            | .error e => .error e
            | .ok (spans, vcur4) => .ok (spanInfoNewWithEncodingKey keyBytes :: spans, vcur4)

/-- `TVFSRootHandler::add_entry`: position the VFS cursor, read the
`span_count` byte, read the spans, and insert the finished entry. The
path-table cursor is untouched. -/
def addEntry (st : TVFSState) (name : Bytes) (vfsInfoPos : Nat) : Except StreamErr TVFSState :=
  if vfsInfoPos < st.vfsData.length then
    match addEntrySpans st.cftData st.encodingKeySize st.cftTableSize
        (st.vfsData.getD vfsInfoPos 0) ⟨st.vfsData, vfsInfoPos + 1⟩ with
    | .error e => .error e
    | .ok (spans, _) =>
      .ok { st with fileEntries := st.fileEntries ++ [entryNewWithSpans name spans] }
  else .error .ioEof

/-- The recursive traversal `TVFSRootHandler::parse(end, builder)`, with
explicit fuel for the `while` loop and recursion. `currentSize` is the
builder length captured at the enclosing call's entry (what
`builder.truncate(current_size)` restores); `0x5C` is `\`. The folder
branch computes `folder_start + folder_size - 4` in wrapping `u64`
arithmetic as the source does. -/
def tvfsParseLoop :
    Nat → TVFSState → Nat → Bytes → Nat → Except StreamErr TVFSState
  | 0, _, _, _, _ => .error .outOfFuel
  | fuel + 1, st, endPos, builder, currentSize =>
    if st.pathCur.pos < endPos then
      match parsePathNode st.pathCur with
      | .error e => .error e
      | .ok (node, cur') =>
        let st1 := { st with pathCur := cur' }
        let builder3 :=
          ((if hasFlag node.flags pathSeparatorPre then builder ++ [0x5C] else builder) ++
              node.name) ++
            (if hasFlag node.flags pathSeparatorPost then [0x5C] else [])
        if hasFlag node.flags isNodeValue then
          match node.value with
          | some val =>
            if intToU32 val &&& 0x80000000 ≠ 0 then
              let folderSize := intToU32 val &&& 0x7FFFFFFF
              let folderEnd := (st1.pathCur.pos + folderSize + (U64 - 4)) % U64
              match tvfsParseLoop fuel st1 folderEnd builder3 builder3.length with
              | .error e => .error e
              | .ok st2 =>
                tvfsParseLoop fuel st2 endPos (builder3.take currentSize) currentSize
            else
              match addEntry st1 builder3 (intToU64 val) with
              | .error e => .error e
              | .ok st2 =>
                tvfsParseLoop fuel st2 endPos (builder3.take currentSize) currentSize
          | none => tvfsParseLoop fuel st1 endPos (builder3.take currentSize) currentSize
        else tvfsParseLoop fuel st1 endPos builder3 currentSize
    else .ok st

/-- The top-level parse of `TVFSRootHandler::new`: from the current
cursor position over the whole path table, with an empty builder. -/
def tvfsParse (fuel : Nat) (st : TVFSState) : Except StreamErr TVFSState :=
  tvfsParseLoop fuel st (st.pathCur.pos + st.pathCur.data.length) [] 0

/-! ### Helper lemmas on machine bit arithmetic -/

/-- Shifting left by 8 then or-ing a byte is base-256 accumulation. -/
theorem shiftLeft8_or_eq (x b : Nat) (hb : b < 256) : (x <<< 8) ||| b = x * 256 + b := by
  have h := Nat.mul_add_lt_is_or (b := b) (i := 8) (by omega : b < 2 ^ 8) x
  rw [Nat.shiftLeft_eq]
  calc x * 2 ^ 8 ||| b = 2 ^ 8 * x ||| b := by rw [Nat.mul_comm]
    _ = 2 ^ 8 * x + b := h.symm
    _ = x * 2 ^ 8 + b := by rw [Nat.mul_comm]

/-- The five-byte big-endian accumulation loop of
`CascKeyMappingTableEntry::new`, evaluated. -/
theorem packedOffsetAndIndex_eq (buffer : Bytes) (keyLen : Nat)
    (hb : ∀ i, buffer.getD i 0 < 256) :
    packedOffsetAndIndex buffer keyLen =
      buffer.getD keyLen 0 * 2 ^ 32 + buffer.getD (1 + keyLen) 0 * 2 ^ 24 +
        buffer.getD (2 + keyLen) 0 * 2 ^ 16 + buffer.getD (3 + keyLen) 0 * 2 ^ 8 +
        buffer.getD (4 + keyLen) 0 := by
  have h0 := hb keyLen
  have h1 := hb (1 + keyLen)
  have h2 := hb (2 + keyLen)
  have h3 := hb (3 + keyLen)
  have h4 := hb (4 + keyLen)
  have hU : U64 = 18446744073709551616 := by norm_num [U64]
  simp only [packedOffsetAndIndex, List.foldl, Nat.zero_add, Nat.zero_shiftLeft, Nat.zero_or]
  rw [Nat.mod_eq_of_lt (show buffer.getD keyLen 0 < U64 by omega),
    shiftLeft8_or_eq _ _ h1,
    Nat.mod_eq_of_lt (show buffer.getD keyLen 0 * 256 + buffer.getD (1 + keyLen) 0 < U64 by
      omega),
    shiftLeft8_or_eq _ _ h2,
    Nat.mod_eq_of_lt (show (buffer.getD keyLen 0 * 256 + buffer.getD (1 + keyLen) 0) * 256 +
      buffer.getD (2 + keyLen) 0 < U64 by omega),
    shiftLeft8_or_eq _ _ h3,
    Nat.mod_eq_of_lt (show ((buffer.getD keyLen 0 * 256 + buffer.getD (1 + keyLen) 0) * 256 +
      buffer.getD (2 + keyLen) 0) * 256 + buffer.getD (3 + keyLen) 0 < U64 by omega),
    shiftLeft8_or_eq _ _ h4,
    Nat.mod_eq_of_lt (show (((buffer.getD keyLen 0 * 256 + buffer.getD (1 + keyLen) 0) * 256 +
      buffer.getD (2 + keyLen) 0) * 256 + buffer.getD (3 + keyLen) 0) * 256 +
      buffer.getD (4 + keyLen) 0 < U64 by omega)]
  ring

/-- The four-byte descending accumulation loop of
`CascKeyMappingTableEntry::new`, evaluated: it produces the little-endian
value of the four bytes at offsets `keyLen + storLen .. keyLen + storLen + 4`. -/
theorem idxEntrySizeField_eq (buffer : Bytes) (keyLen storLen : Nat)
    (hb : ∀ i, buffer.getD i 0 < 256) :
    idxEntrySizeField buffer keyLen storLen =
      buffer.getD (keyLen + storLen) 0 + buffer.getD (1 + keyLen + storLen) 0 * 2 ^ 8 +
        buffer.getD (2 + keyLen + storLen) 0 * 2 ^ 16 +
        buffer.getD (3 + keyLen + storLen) 0 * 2 ^ 24 := by
  have h0 := hb (keyLen + storLen)
  have h1 := hb (1 + keyLen + storLen)
  have h2 := hb (2 + keyLen + storLen)
  have h3 := hb (3 + keyLen + storLen)
  have hU : U32 = 4294967296 := by norm_num [U32]
  simp only [idxEntrySizeField, List.foldl, Nat.zero_shiftLeft, Nat.zero_or, Nat.zero_add]
  rw [Nat.mod_eq_of_lt (show buffer.getD (3 + keyLen + storLen) 0 < U32 by omega),
    shiftLeft8_or_eq _ _ h2,
    Nat.mod_eq_of_lt (show buffer.getD (3 + keyLen + storLen) 0 * 256 +
      buffer.getD (2 + keyLen + storLen) 0 < U32 by omega),
    shiftLeft8_or_eq _ _ h1,
    Nat.mod_eq_of_lt (show (buffer.getD (3 + keyLen + storLen) 0 * 256 +
      buffer.getD (2 + keyLen + storLen) 0) * 256 +
      buffer.getD (1 + keyLen + storLen) 0 < U32 by omega),
    shiftLeft8_or_eq _ _ h0,
    Nat.mod_eq_of_lt (show ((buffer.getD (3 + keyLen + storLen) 0 * 256 +
      buffer.getD (2 + keyLen + storLen) 0) * 256 +
      buffer.getD (1 + keyLen + storLen) 0) * 256 +
      buffer.getD (keyLen + storLen) 0 < U32 by omega)]
  ring

/-! ### Claim theorems: C2, C3, C6, C7 -/

/-- C3: the claim states `CascKeyMappingTable::new` fails with the
corrupted error exactly when any of `encoded_size_len ≠ 4`,
`storage_offset_len ≠ 5`, `encoding_key_len ≠ 9` holds. The code instead
conjoins the three disequalities with `&&`, so it rejects only when all
three differ: the check accepts the header `(4, 5, 16)` although its
`encoding_key_len` is not 9. -/
theorem c3_idx_size_check_is_conjunction :
    (∀ a b c : Nat, idxSizeCheckFails a b c = true ↔ (a ≠ 4 ∧ b ≠ 5 ∧ c ≠ 9)) ∧
      idxSizeCheckFails 4 5 16 = false := by
  constructor
  · intro a b c
    simp only [idxSizeCheckFails, Bool.and_eq_true, bne_iff_ne, ne_eq]
    tauto
  · rfl

/-- C7: the claim states the post-header seek target is
`(pos + 0x17) & ~0x0F` with a 64-bit mask, also for positions at or above
`2^32`. The code masks with the literal `0xFFFFFFF0`, whose upper 32 bits
are clear: at `pos = 2^32` the code seeks to `0x10` while the 64-bit mask
gives `0x100000010`. -/
theorem c7_idx_align_truncates_to_32_bits :
    idxAlignNewPos (2 ^ 32) = 0x10 ∧
      ((2 ^ 32 + 0x17) &&& mask64Not0F) = 0x100000010 ∧
      idxAlignNewPos (2 ^ 32) ≠ ((2 ^ 32 + 0x17) &&& mask64Not0F) := by
  refine ⟨by decide, by decide, by decide⟩

/-- Clearing the low four bits of a value below `2^m` with the mask
`2^m - 16` rounds it down to a multiple of 16. Used to relate the source's
32-bit alignment mask and the intended 64-bit one. -/
theorem and_two_pow_sub_sixteen (x m : Nat) (hm : 4 ≤ m) (hx : x < 2 ^ m) :
    x &&& (2 ^ m - 16) = x / 16 * 16 := by
  have hmask : (2 ^ m - 16 : Nat) = (2 ^ (m - 4) - 1) <<< 4 := by
    rw [Nat.shiftLeft_eq, Nat.sub_mul, ← Nat.pow_add]
    have h44 : m - 4 + 4 = m := by omega
    rw [h44]
  have hdiv : x / 16 * 16 = (x >>> 4) <<< 4 := by
    rw [Nat.shiftRight_eq_div_pow, Nat.shiftLeft_eq]
  rw [hmask, hdiv]
  apply Nat.eq_of_testBit_eq
  intro i
  simp only [Nat.testBit_and, Nat.testBit_shiftLeft, Nat.testBit_shiftRight,
    Nat.testBit_two_pow_sub_one]
  by_cases h4i : 4 ≤ i
  · by_cases him : i < m
    · have h1 : i - 4 < m - 4 := by omega
      have h2 : 4 + (i - 4) = i := by omega
      simp [h4i, h1, h2]
    · have hx' : x.testBit i = false :=
        Nat.testBit_lt_two_pow
          (Nat.lt_of_lt_of_le hx (Nat.pow_le_pow_right (by norm_num) (by omega)))
      have h2 : 4 + (i - 4) = i := by omega
      simp [h4i, hx', h2]
  · simp [h4i]

/-- C7 supporting fact: below `2^32` the code's 32-bit mask agrees with the
intended 64-bit mask, so the divergence is confined to large positions. -/
theorem idxAlign_agrees_below_two_pow_32 (pos : Nat) (h : pos + 0x17 < 2 ^ 32) :
    idxAlignNewPos pos = (pos + 0x17) &&& mask64Not0F := by
  unfold idxAlignNewPos mask64Not0F U64
  rw [Nat.mod_eq_of_lt (Nat.lt_of_lt_of_le h (Nat.pow_le_pow_right (by norm_num) (by norm_num)))]
  have e32 : (0xFFFFFFF0 : Nat) = 2 ^ 32 - 16 := by norm_num
  have e64 : (2 ^ 64 - 0x10 : Nat) = 2 ^ 64 - 16 := by norm_num
  rw [e32, e64, and_two_pow_sub_sixteen _ 32 (by norm_num) h,
    and_two_pow_sub_sixteen _ 64 (by norm_num)
      (Nat.lt_of_lt_of_le h (Nat.pow_le_pow_right (by norm_num) (by norm_num)))]

/-- C2: the claim states seeking must behave as Start → `offset`,
Current → `position + offset` with underflow rejection, End →
`size + offset`. The code's `SeekFrom::End` branch computes
`size - offset` and its `SeekFrom::Current` branch wraps on underflow
instead of rejecting: on a file of size 10, `End(-4)` yields position 14
(the claim requires 6), and `Current(-1)` at position 0 yields
`2^64 - 1` instead of an error. `Start` alone matches the claim. -/
theorem c2_seek_end_and_current_diverge :
    cascFileSeekPos 10 0 (.fromEnd (-4)) = 14 ∧
      (14 : Nat) ≠ 6 ∧
      cascFileSeekPos 10 0 (.current (-1)) = 2 ^ 64 - 1 ∧
      (∀ size pos offset : Nat, cascFileSeekPos size pos (.start offset) = offset % U64) := by
  refine ⟨by decide, by decide, by decide, fun size pos offset => rfl⟩

/-- C6 (amended): decoding an 18-byte IDX record with the standard field
widths (9-byte key, 5-byte packed offset, 4-byte size) against a table
whose `file_offset_bits` lies between 8 and 30 (the typical value is 30):
the key is bytes 0..9 as-is; with `P` the 40-bit big-endian integer of
bytes 9..14, `archive_index = P >> file_offset_bits` and
`offset = P & ((1 <<< file_offset_bits) - 1)`; and `size` is the 32-bit
little-endian integer of bytes 14..18. The restriction is forced by the
source: for `file_offset_bits < 8` the `as u32` cast truncates the
shifted value (see the counterexample below), and for
`file_offset_bits ≥ 31` the `i32` mask computation overflows. -/
theorem c6_idx_record_decoding (buffer : Bytes) (bits : Nat)
    (hlen : buffer.length = 18) (hb18 : ∀ i, i < 18 → buffer.getD i 0 < 256)
    (hbits8 : 8 ≤ bits) (hbits30 : bits ≤ 30) :
    (cascKeyMappingTableEntryNew buffer 9 5 bits (fileOffsetMaskFromBits bits)).encoding_key =
        buffer.take 9 ∧
      (cascKeyMappingTableEntryNew buffer 9 5 bits (fileOffsetMaskFromBits bits)).archive_index =
        specIdxPacked buffer >>> bits ∧
      (cascKeyMappingTableEntryNew buffer 9 5 bits (fileOffsetMaskFromBits bits)).offset =
        specIdxPacked buffer &&& ((1 <<< bits) - 1) ∧
      (cascKeyMappingTableEntryNew buffer 9 5 bits (fileOffsetMaskFromBits bits)).size =
        specIdxSizeLE buffer := by
  have hb : ∀ i, buffer.getD i 0 < 256 := by
    intro i
    by_cases hi : i < 18
    · exact hb18 i hi
    · rw [List.getD_eq_default _ _ (by omega)]
      norm_num
  have hpacked : packedOffsetAndIndex buffer 9 = specIdxPacked buffer := by
    have h := packedOffsetAndIndex_eq buffer 9 hb
    unfold specIdxPacked
    simpa using h
  refine ⟨rfl, ?_, ?_, ?_⟩
  · show (packedOffsetAndIndex buffer 9 >>> bits) % U32 = specIdxPacked buffer >>> bits
    rw [hpacked]
    have hP : specIdxPacked buffer < 2 ^ 40 := by
      have h9 := hb 9; have h10 := hb 10; have h11 := hb 11
      have h12 := hb 12; have h13 := hb 13
      unfold specIdxPacked
      omega
    rw [Nat.shiftRight_eq_div_pow]
    have hlt : specIdxPacked buffer / 2 ^ bits < 2 ^ 32 := by
      apply Nat.div_lt_of_lt_mul
      calc specIdxPacked buffer < 2 ^ 40 := hP
        _ ≤ 2 ^ bits * 2 ^ 32 := by
            rw [← Nat.pow_add]
            exact Nat.pow_le_pow_right (by norm_num) (by omega)
    simpa only [U32] using Nat.mod_eq_of_lt hlt
  · show packedOffsetAndIndex buffer 9 &&& fileOffsetMaskFromBits bits =
      specIdxPacked buffer &&& ((1 <<< bits) - 1)
    rw [hpacked]; rfl
  · show idxEntrySizeField buffer 9 5 = specIdxSizeLE buffer
    have h := idxEntrySizeField_eq buffer 9 5 hb
    unfold specIdxSizeLE
    simpa using h

/-- C6 witness: the record-decoding theorem evaluated on a concrete
18-byte record with `file_offset_bits = 30` (the typical value). -/
theorem c6_witness :
    (cascKeyMappingTableEntryNew
        [1, 2, 3, 4, 5, 6, 7, 8, 9, 0x12, 0x34, 0x56, 0x78, 0x9A, 0xEF, 0xCD, 0xAB, 0x01]
        9 5 30 (fileOffsetMaskFromBits 30)).encoding_key =
      ([1, 2, 3, 4, 5, 6, 7, 8, 9, 0x12, 0x34, 0x56, 0x78, 0x9A, 0xEF, 0xCD, 0xAB, 0x01] :
          Bytes).take 9 ∧
      (cascKeyMappingTableEntryNew
        [1, 2, 3, 4, 5, 6, 7, 8, 9, 0x12, 0x34, 0x56, 0x78, 0x9A, 0xEF, 0xCD, 0xAB, 0x01]
        9 5 30 (fileOffsetMaskFromBits 30)).archive_index =
      specIdxPacked
        [1, 2, 3, 4, 5, 6, 7, 8, 9, 0x12, 0x34, 0x56, 0x78, 0x9A, 0xEF, 0xCD, 0xAB, 0x01] >>> 30 ∧
      (cascKeyMappingTableEntryNew
        [1, 2, 3, 4, 5, 6, 7, 8, 9, 0x12, 0x34, 0x56, 0x78, 0x9A, 0xEF, 0xCD, 0xAB, 0x01]
        9 5 30 (fileOffsetMaskFromBits 30)).offset =
      specIdxPacked
        [1, 2, 3, 4, 5, 6, 7, 8, 9, 0x12, 0x34, 0x56, 0x78, 0x9A, 0xEF, 0xCD, 0xAB, 0x01] &&&
        ((1 <<< 30) - 1) ∧
      (cascKeyMappingTableEntryNew
        [1, 2, 3, 4, 5, 6, 7, 8, 9, 0x12, 0x34, 0x56, 0x78, 0x9A, 0xEF, 0xCD, 0xAB, 0x01]
        9 5 30 (fileOffsetMaskFromBits 30)).size =
      specIdxSizeLE
        [1, 2, 3, 4, 5, 6, 7, 8, 9, 0x12, 0x34, 0x56, 0x78, 0x9A, 0xEF, 0xCD, 0xAB, 0x01] :=
  c6_idx_record_decoding
    [1, 2, 3, 4, 5, 6, 7, 8, 9, 0x12, 0x34, 0x56, 0x78, 0x9A, 0xEF, 0xCD, 0xAB, 0x01] 30
    rfl (by decide) (by decide) (by decide)

/-- C6 counterexample: the claim as frozen quantifies over every 18-byte
record with no restriction on `file_offset_bits`, but the header parse
never validates that field, and the source truncates
`packed_offset_and_index >> file_offset_bits` through `as u32`. At
`file_offset_bits = 0` (mask `(1 << 0) - 1 = 0`, computed exactly by the
`i32` arithmetic) with record bytes 9..14 equal to `[1, 0, 0, 0, 0]`, the
packed value `P` is `2^32`: the code yields `archive_index = 0` while the
claim's `P >> file_offset_bits` is `2^32`. -/
theorem c6_counterexample :
    (cascKeyMappingTableEntryNew
        [0, 0, 0, 0, 0, 0, 0, 0, 0, 1, 0, 0, 0, 0, 0, 0, 0, 0] 9 5 0
        (fileOffsetMaskFromBits 0)).archive_index = 0 ∧
      specIdxPacked [0, 0, 0, 0, 0, 0, 0, 0, 0, 1, 0, 0, 0, 0, 0, 0, 0, 0] >>> 0 =
        4294967296 ∧
      (0 : Nat) ≠ 4294967296 := by
  refine ⟨by decide, by decide, by decide⟩

/-- C10: a read with a zero-length buffer returns 0 and leaves the whole
stream state (in particular the position) unchanged, and a read at or past
`size` returns 0; stated for open streams (the source never clears
`is_open`, so every reachable stream is open). -/
theorem c10_zero_length_and_eof_reads (zlib : Bytes → Option Bytes) (s : CascFile)
    (h : s.is_open = true) :
    cascFileReadRun zlib s 0 = .ok ([], 0, s) ∧
      (s.internal_size ≤ s.internal_position →
        ∀ n, cascFileReadRun zlib s n = .ok ([], 0, s)) := by
  constructor
  · unfold cascFileReadRun cascFileRead
    rw [h]
    by_cases hp : s.internal_position ≥ s.internal_size
    · simp [hp]
    · simp [hp, cascFileReadLoop]
  · intro hp n
    unfold cascFileReadRun cascFileRead
    rw [h]
    simp [hp]

/-- C10 witness: the zero-length and at-EOF read behavior evaluated on a
concrete fresh stream. -/
theorem c10_witness :
    cascFileReadRun (fun _ => none) (cascFileNew [] 0) 0 = .ok ([], 0, cascFileNew [] 0) ∧
      cascFileReadRun (fun _ => none) (cascFileNew [] 0) 5 = .ok ([], 0, cascFileNew [] 0) := by
  have h := c10_zero_length_and_eof_reads (fun _ => none) (cascFileNew [] 0) rfl
  exact ⟨h.1, h.2 (by decide) 5⟩

/-! ### Read-loop correctness machinery -/

/-- A `u64`-range natural is a fixed point of the `i64 → u64` wraparound. -/
theorem intToU64_natCast (a : Nat) (h : a < U64) : intToU64 (a : Int) = a := by
  unfold intToU64
  rw [Int.emod_eq_of_lt (Int.natCast_nonneg _) (by exact_mod_cast h)]
  exact Int.toNat_natCast a

/-- `seek(Current(n))` for a nonnegative in-range `n` advances the
position by `n` and changes nothing else. -/
theorem cascFileSeek_current_eq (s : CascFile) (n : Nat) (h : s.internal_position + n < U64) :
    cascFileSeek s (.current (n : Int)) =
      { s with internal_position := s.internal_position + n } := by
  have hval : cascFileSeekPos s.internal_size s.internal_position (.current (n : Int)) =
      s.internal_position + n := by
    simp only [cascFileSeekPos]
    rw [← Int.natCast_add]
    exact intToU64_natCast _ h
  unfold cascFileSeek
  rw [hval]

/-- `seek(Start(p))` for an in-range `p` sets the position to `p`. -/
theorem cascFileSeek_start_eq (s : CascFile) (p : Nat) (h : p < U64) :
    cascFileSeek s (.start p) = { s with internal_position := p } := by
  unfold cascFileSeek
  simp only [cascFileSeekPos]
  rw [Nat.mod_eq_of_lt h]

/-- `seek(End(0))` sets the position to `size` (the source computes
`size - 0`). -/
theorem cascFileSeek_end_zero_eq (s : CascFile) (h : s.internal_size < U64) :
    cascFileSeek s (.fromEnd 0) = { s with internal_position := s.internal_size } := by
  have hval : cascFileSeekPos s.internal_size s.internal_position (.fromEnd 0) =
      s.internal_size := by
    simp only [cascFileSeekPos]
    rw [show ((s.internal_size : Int) - 0) = (s.internal_size : Int) from by ring]
    exact intToU64_natCast _ h
  unfold cascFileSeek
  rw [hval]

/-- A window of a cache that agrees pointwise with `content` equals the
corresponding slice of `content`. -/
theorem cache_slice_eq (c content : Bytes) (start p n : Nat)
    (hpn : p + n ≤ c.length) (hcn : start + p + n ≤ content.length)
    (hag : ∀ i, i < c.length → c.getD i 0 = content.getD (start + i) 0) :
    (c.drop p).take n = readSlice content (start + p) n := by
  apply List.ext_getElem
  · simp only [readSlice, List.length_take, List.length_drop]
    omega
  · intro i h1 h2
    simp only [readSlice, List.getElem_take, List.getElem_drop]
    have hi : i < n := by
      simp only [List.length_take, List.length_drop] at h1
      omega
    have hci : p + i < c.length := by omega
    have hco : start + (p + i) < content.length := by omega
    have hx := hag (p + i) hci
    rw [List.getD_eq_getElem _ _ hci, List.getD_eq_getElem _ _ hco] at hx
    simpa [Nat.add_assoc] using hx

/-- Adjacent slices concatenate. -/
theorem readSlice_append (content : Bytes) (p n m : Nat) :
    readSlice content p n ++ readSlice content (p + n) m = readSlice content p (n + m) := by
  unfold readSlice
  rw [List.take_add, List.drop_drop]

/-- Length of a fully in-range slice. -/
theorem readSlice_length (content : Bytes) (p n : Nat) (h : p + n ≤ content.length) :
    (readSlice content p n).length = n := by
  simp only [readSlice, List.length_take, List.length_drop]
  omega

/-- A cache miss leaves the loop state untouched. -/
theorem cacheStep_not_covered (s : CascFile) (bufLen rsp toRead offset : Nat) (acc : Bytes)
    (hncov : cacheCovers s rsp = false) :
    cacheStep s bufLen rsp toRead offset acc = .ok (acc, toRead, s, offset) := by
  cases hc : s.cache with
  | none => simp only [cacheStep, hc]
  | some c =>
    have hcond : ¬(s.cache_end_position - rsp > 0 ∧ s.cache_start_position ≤ rsp ∧
        rsp < s.cache_end_position) := by
      intro h
      obtain ⟨h1, h2, h3⟩ := h
      have htrue : cacheCovers s rsp = true := by
        unfold cacheCovers
        simp only [hc]
        simp [h1, h2, h3]
      rw [htrue] at hncov
      simp at hncov
    simp only [cacheStep, hc]
    rw [if_neg hcond]

/-- A cache hit copies `min(to_read, min(cache_available, buf_available))`
bytes out of the cache and advances the loop state accordingly. -/
theorem cacheStep_covered_eq (s : CascFile) (c : Bytes) (bufLen rsp toRead offset : Nat)
    (acc : Bytes) (hc : s.cache = some c)
    (hgt : s.cache_end_position - rsp > 0)
    (hle : s.cache_start_position ≤ rsp)
    (hlt : rsp < s.cache_end_position)
    (hslice : rsp - s.cache_start_position +
      min toRead (min (s.cache_end_position - rsp) (bufLen - offset)) ≤ c.length) :
    cacheStep s bufLen rsp toRead offset acc =
      .ok (acc ++ (c.drop (rsp - s.cache_start_position)).take
            (min toRead (min (s.cache_end_position - rsp) (bufLen - offset))),
        toRead - min toRead (min (s.cache_end_position - rsp) (bufLen - offset)),
        cascFileSeek s
          (.current ((min toRead (min (s.cache_end_position - rsp) (bufLen - offset)) : Nat) : Int)),
        offset + min toRead (min (s.cache_end_position - rsp) (bufLen - offset))) := by
  simp only [cacheStep, hc]
  rw [if_pos ⟨hgt, hle, hlt⟩, if_pos hslice]

/-- When `frameOkAt` holds at `rsp`, the frame-decode section succeeds and
produces a state whose cache is valid and covers `rsp`, all other fields
unchanged. -/
theorem frameStep_of_frameOkAt (zlib : Bytes → Option Bytes) (s : CascFile) (content : Bytes)
    (rsp : Nat) (h : frameOkAt zlib s.spans content rsp = true) :
    ∃ s₃, frameStep zlib s rsp = .ok s₃ ∧
      s₃.spans = s.spans ∧ s₃.internal_size = s.internal_size ∧
      s₃.internal_position = s.internal_position ∧ s₃.is_open = s.is_open ∧
      cacheValid s₃ content = true ∧ cacheCovers s₃ rsp = true := by
  unfold frameOkAt at h
  cases hspan : findSpan s.spans rsp with
  | none => rw [hspan] at h; simp at h
  | some span =>
    simp only [hspan] at h
    cases hframe : findFrame span.frames rsp with
    | none => rw [hframe] at h; simp at h
    | some frame =>
      simp only [hframe] at h
      cases hload : loadFrameCache zlib span.archive frame with
      | error e => rw [hload] at h; simp at h
      | ok c =>
        simp only [hload] at h
        simp only [Bool.and_eq_true, decide_eq_true_eq, beq_iff_eq] at h
        obtain ⟨⟨⟨hle, hlt⟩, hend⟩, hlen, hag⟩ := h
        refine ⟨{ s with
            cache_start_position := frame.virtual_start_offset
            cache_end_position := frame.virtual_start_offset + frame.content_size
            cache := some c }, ?_, rfl, rfl, rfl, rfl, ?_, ?_⟩
        · simp only [frameStep, hspan, hframe, hload]
        · simp only [cacheValid]
          simp only [Bool.and_eq_true, beq_iff_eq, decide_eq_true_eq]
          exact ⟨by rw [hlen], hag⟩
        · simp only [cacheCovers]
          simp only [Bool.and_eq_true, decide_eq_true_eq]
          omega

/-- Main loop lemma: with a valid cache, a well-formed stream and an
in-range request, the read loop succeeds and appends exactly the requested
slice of the logical contents. The fuel bound reflects that every
iteration after a frame decode copies at least one byte. -/
theorem cascFileReadLoop_ok (zlib : Bytes → Option Bytes) (content : Bytes) :
    ∀ fuel toRead s offset acc bufLen,
      cascFileWF zlib s content →
      cacheValid s content = true →
      offset + toRead = bufLen →
      acc.length = offset →
      s.internal_position + toRead ≤ s.internal_size →
      2 * toRead + 1 + (if cacheCovers s s.internal_position = true then 0 else 1) ≤ fuel →
      ∃ s', cascFileReadLoop zlib fuel s bufLen s.internal_position toRead offset acc =
        .ok (acc ++ readSlice content s.internal_position toRead, offset + toRead, s') := by
  intro fuel
  induction fuel with
  | zero =>
    intro toRead s offset acc bufLen _ _ _ _ _ hfuel
    exfalso
    by_cases h : cacheCovers s s.internal_position = true <;> simp [h] at hfuel
  | succ fuel ih =>
    intro toRead s offset acc bufLen hwf hcv hbuf hacc hsize hfuel
    obtain ⟨hsz, hszU, hfok⟩ := hwf
    by_cases h0 : toRead = 0
    · subst h0
      refine ⟨s, ?_⟩
      simp [cascFileReadLoop, readSlice]
    · simp only [cascFileReadLoop]
      rw [if_neg h0]
      by_cases hcov : cacheCovers s s.internal_position = true
      · -- cache hit first
        obtain ⟨c, hc⟩ : ∃ c, s.cache = some c := by
          unfold cacheCovers at hcov
          cases hcc : s.cache with
          | none => rw [hcc] at hcov; simp at hcov
          | some c => exact ⟨c, rfl⟩
        have hcov' := hcov
        simp only [cacheCovers, hc] at hcov'
        simp only [Bool.and_eq_true, decide_eq_true_eq] at hcov'
        obtain ⟨⟨hgt, hle⟩, hlt⟩ := hcov'
        have hcv' := hcv
        simp only [cacheValid, hc] at hcv'
        simp only [Bool.and_eq_true, beq_iff_eq, decide_eq_true_eq] at hcv'
        obtain ⟨hcend, hcag⟩ := hcv'
        have hslice_ok : s.internal_position - s.cache_start_position +
            min toRead (min (s.cache_end_position - s.internal_position) (bufLen - offset)) ≤
              c.length := by omega
        have hstep := cacheStep_covered_eq s c bufLen s.internal_position toRead offset acc hc
          hgt hle hlt hslice_ok
        generalize hn : min toRead
          (min (s.cache_end_position - s.internal_position) (bufLen - offset)) = n at hstep
        have hn1 : 1 ≤ n := by omega
        have hnle : n ≤ toRead := by omega
        have hposn : s.internal_position + n < U64 := by omega
        have hseek := cascFileSeek_current_eq s n hposn
        rw [hseek] at hstep
        have hsl : (c.drop (s.internal_position - s.cache_start_position)).take n =
            readSlice content s.internal_position n := by
          have h := cache_slice_eq c content s.cache_start_position
            (s.internal_position - s.cache_start_position) n (by omega) (by omega) hcag
          rwa [show s.cache_start_position + (s.internal_position - s.cache_start_position) =
            s.internal_position from by omega] at h
        rw [hsl] at hstep
        simp only [hstep]
        by_cases hdone : toRead - n = 0
        · rw [if_pos hdone]
          refine ⟨{ s with internal_position := s.internal_position + n }, ?_⟩
          rw [show n = toRead from by omega]
        · rw [if_neg hdone]
          have hlt_size : s.internal_position + n < s.internal_size := by omega
          rw [if_neg (show ¬(s.internal_size ≤ s.internal_position + n) from by omega)]
          obtain ⟨s₃, hfs, hsp, hsz3, hpos3, hopen3, hcv3, hcov3⟩ :=
            frameStep_of_frameOkAt zlib { s with internal_position := s.internal_position + n }
              content (s.internal_position + n) (hfok _ hlt_size)
          simp only [hfs]
          have hslicelen : (readSlice content s.internal_position n).length = n :=
            readSlice_length content s.internal_position n (by omega)
          obtain ⟨s₄, IHeq⟩ := ih (toRead - n) s₃ (offset + n)
            (acc ++ readSlice content s.internal_position n) bufLen
            ⟨by rw [hsz3]; exact hsz, by rw [hsz3]; exact hszU,
              fun q hq => by rw [hsp]; exact hfok q (by rw [hsz3] at hq; exact hq)⟩
            hcv3 (by omega) (by rw [List.length_append, hslicelen]; omega)
            (by rw [hpos3, hsz3]; show s.internal_position + n + (toRead - n) ≤ s.internal_size
                omega)
            (by rw [hpos3, if_pos hcov3]
                rw [if_pos hcov] at hfuel
                omega)
          rw [hpos3] at IHeq
          refine ⟨s₄, ?_⟩
          rw [IHeq, List.append_assoc, readSlice_append,
            show n + (toRead - n) = toRead from by omega,
            show offset + n + (toRead - n) = offset + toRead from by omega]
      · -- cache miss first: decode a frame, then the next iteration copies
        have hncov : cacheCovers s s.internal_position = false := by
          cases hbool : cacheCovers s s.internal_position with
          | false => rfl
          | true => exact absurd hbool hcov
        simp only [cacheStep_not_covered s bufLen s.internal_position toRead offset acc hncov]
        rw [if_neg h0]
        have hlt_size : s.internal_position < s.internal_size := by omega
        rw [if_neg (show ¬(s.internal_size ≤ s.internal_position) from by omega)]
        obtain ⟨s₃, hfs, hsp, hsz3, hpos3, hopen3, hcv3, hcov3⟩ :=
          frameStep_of_frameOkAt zlib s content s.internal_position (hfok _ hlt_size)
        simp only [hfs]
        obtain ⟨s₄, IHeq⟩ := ih toRead s₃ offset acc bufLen
          ⟨by rw [hsz3]; exact hsz, by rw [hsz3]; exact hszU,
            fun q hq => by rw [hsp]; exact hfok q (by rw [hsz3] at hq; exact hq)⟩
          hcv3 hbuf hacc (by rw [hpos3, hsz3]; exact hsize)
          (by rw [hpos3, if_pos hcov3]
              rw [hncov] at hfuel
              simp at hfuel
              omega)
        rw [hpos3] at IHeq
        exact ⟨s₄, IHeq⟩

/-- `CascFile::read` on a well-formed open stream with an in-range request
returns exactly the requested slice of the logical contents, and reports
its length as the consumed count. -/
theorem cascFileRead_ok (zlib : Bytes → Option Bytes) (content : Bytes) (s : CascFile) (n : Nat)
    (hwf : cascFileWF zlib s content) (hcv : cacheValid s content = true)
    (hopen : s.is_open = true) (hn : s.internal_position + n ≤ s.internal_size) :
    ∃ s', cascFileReadRun zlib s n =
      .ok (readSlice content s.internal_position n, n, s') := by
  obtain ⟨hsz, hszU, hfok⟩ := hwf
  unfold cascFileReadRun cascFileRead
  rw [hopen]
  by_cases hp : s.internal_size ≤ s.internal_position
  · have hn0 : n = 0 := by omega
    subst hn0
    have hpos : s.internal_position ≥ s.internal_size := hp
    refine ⟨s, ?_⟩
    rw [if_neg (by simp)]
    rw [if_pos hpos]
    simp [readSlice]
  · rw [if_neg (by simp)]
    rw [if_neg (show ¬(s.internal_position ≥ s.internal_size) from hp)]
    have := cascFileReadLoop_ok zlib content (2 * n + 2) n s 0 [] n
      ⟨hsz, hszU, hfok⟩ hcv (by omega) rfl hn
      (by by_cases hcc : cacheCovers s s.internal_position = true <;> simp [hcc])
    simpa using this

/-- C9: positional-read coherence. On any open, well-formed stream with an
in-range window `p + n ≤ size`: seeking to `p` and reading `n` bytes
yields the same byte sequence as seeking to 0, reading `p + n` bytes, and
slicing `[p, p+n)`; seeking to the end then reading yields the empty
sequence; and seeking to the start then reading `size` bytes yields the
complete logical contents. -/
theorem c9_positional_read_coherence (zlib : Bytes → Option Bytes) (content : Bytes)
    (s : CascFile) (p n : Nat)
    (hwf : cascFileWF zlib s content) (hcv : cacheValid s content = true)
    (hopen : s.is_open = true) (hpn : p + n ≤ cascFileSize s) :
    (∃ bytes₂ s₁ s₂,
        cascFileReadRun zlib (cascFileSeek s (.start p)) n =
          .ok ((bytes₂.drop p).take n, n, s₁) ∧
        cascFileReadRun zlib (cascFileSeek s (.start 0)) (p + n) = .ok (bytes₂, p + n, s₂)) ∧
      (∀ m, cascFileReadRun zlib (cascFileSeek s (.fromEnd 0)) m =
        .ok ([], 0, cascFileSeek s (.fromEnd 0))) ∧
      (∃ s₃, cascFileReadRun zlib (cascFileSeek s (.start 0)) (cascFileSize s) =
        .ok (content, cascFileSize s, s₃)) := by
  obtain ⟨hsz, hszU, hfok⟩ := hwf
  have hsize : cascFileSize s = s.internal_size := rfl
  rw [hsize] at hpn
  have h0U : (0 : Nat) < U64 := by
    rw [show U64 = 2 ^ 64 from rfl]
    positivity
  have hseekp : cascFileSeek s (.start p) = { s with internal_position := p } :=
    cascFileSeek_start_eq s p (by omega)
  have hseek0 : cascFileSeek s (.start 0) = { s with internal_position := 0 } :=
    cascFileSeek_start_eq s 0 h0U
  have hseekend : cascFileSeek s (.fromEnd 0) = { s with internal_position := s.internal_size } :=
    cascFileSeek_end_zero_eq s hszU
  refine ⟨?_, ?_, ?_⟩
  · -- seek p, read n versus seek 0, read (p + n), slice
    obtain ⟨s₁, h₁⟩ := cascFileRead_ok zlib content { s with internal_position := p } n
      ⟨hsz, hszU, hfok⟩ hcv hopen (by show p + n ≤ s.internal_size; omega)
    obtain ⟨s₂, h₂⟩ := cascFileRead_ok zlib content { s with internal_position := 0 } (p + n)
      ⟨hsz, hszU, hfok⟩ hcv hopen (by show 0 + (p + n) ≤ s.internal_size; omega)
    refine ⟨readSlice content 0 (p + n), s₁, s₂, ?_, ?_⟩
    · rw [hseekp, h₁]
      have hslice : ((readSlice content 0 (p + n)).drop p).take n = readSlice content p n := by
        unfold readSlice
        rw [List.drop_zero, List.drop_take, List.take_take]
        congr 1
        omega
      rw [hslice]
    · rw [hseek0, h₂]
  · -- seek to end, then read: empty
    intro m
    rw [hseekend]
    unfold cascFileReadRun cascFileRead
    rw [show ({ s with internal_position := s.internal_size } : CascFile).is_open = true
      from hopen]
    simp
  · -- seek to start, read to EOF: the full contents
    obtain ⟨s₃, h₃⟩ := cascFileRead_ok zlib content { s with internal_position := 0 }
      s.internal_size ⟨hsz, hszU, hfok⟩ hcv hopen
      (by show 0 + s.internal_size ≤ s.internal_size; omega)
    refine ⟨s₃, ?_⟩
    rw [hsize, hseek0, h₃]
    have : readSlice content 0 s.internal_size = content := by
      unfold readSlice
      rw [List.drop_zero, hsz, List.take_length]
    rw [this]

/-- C9 witness: the coherence theorem applied to a concrete two-frame raw
stream holding the bytes `"ABCDEFGH"`, at `p = 3`, `n = 3`. -/
theorem c9_witness :
    (∃ bytes₂ s₁ s₂,
        cascFileReadRun (fun _ => none)
            (cascFileSeek
              (cascFileNew
                [⟨[0x4E, 65, 66, 67, 68, 0x4E, 69, 70, 71, 72], 0, 8, 0,
                  [⟨0, 4, 0, 5, 4⟩, ⟨4, 8, 5, 5, 4⟩]⟩] 8) (.start 3)) 3 =
          .ok ((bytes₂.drop 3).take 3, 3, s₁) ∧
        cascFileReadRun (fun _ => none)
            (cascFileSeek
              (cascFileNew
                [⟨[0x4E, 65, 66, 67, 68, 0x4E, 69, 70, 71, 72], 0, 8, 0,
                  [⟨0, 4, 0, 5, 4⟩, ⟨4, 8, 5, 5, 4⟩]⟩] 8) (.start 0)) (3 + 3) =
          .ok (bytes₂, 3 + 3, s₂)) ∧
      (∀ m, cascFileReadRun (fun _ => none)
          (cascFileSeek
            (cascFileNew
              [⟨[0x4E, 65, 66, 67, 68, 0x4E, 69, 70, 71, 72], 0, 8, 0,
                [⟨0, 4, 0, 5, 4⟩, ⟨4, 8, 5, 5, 4⟩]⟩] 8) (.fromEnd 0)) m =
        .ok ([], 0,
          cascFileSeek
            (cascFileNew
              [⟨[0x4E, 65, 66, 67, 68, 0x4E, 69, 70, 71, 72], 0, 8, 0,
                [⟨0, 4, 0, 5, 4⟩, ⟨4, 8, 5, 5, 4⟩]⟩] 8) (.fromEnd 0))) ∧
      (∃ s₃, cascFileReadRun (fun _ => none)
          (cascFileSeek
            (cascFileNew
              [⟨[0x4E, 65, 66, 67, 68, 0x4E, 69, 70, 71, 72], 0, 8, 0,
                [⟨0, 4, 0, 5, 4⟩, ⟨4, 8, 5, 5, 4⟩]⟩] 8) (.start 0))
          (cascFileSize
            (cascFileNew
              [⟨[0x4E, 65, 66, 67, 68, 0x4E, 69, 70, 71, 72], 0, 8, 0,
                [⟨0, 4, 0, 5, 4⟩, ⟨4, 8, 5, 5, 4⟩]⟩] 8)) =
        .ok ([65, 66, 67, 68, 69, 70, 71, 72],
          cascFileSize
            (cascFileNew
              [⟨[0x4E, 65, 66, 67, 68, 0x4E, 69, 70, 71, 72], 0, 8, 0,
                [⟨0, 4, 0, 5, 4⟩, ⟨4, 8, 5, 5, 4⟩]⟩] 8), s₃)) :=
  c9_positional_read_coherence (fun _ => none) [65, 66, 67, 68, 69, 70, 71, 72]
    (cascFileNew
      [⟨[0x4E, 65, 66, 67, 68, 0x4E, 69, 70, 71, 72], 0, 8, 0,
        [⟨0, 4, 0, 5, 4⟩, ⟨4, 8, 5, 5, 4⟩]⟩] 8) 3 3
    (by refine ⟨rfl, by decide, ?_⟩; decide) rfl rfl (by decide)

/-- C8: a frame whose encoder tag is `E` (0x45) or any byte other than
`N` (0x4E) and `Z` (0x5A) makes `read` fail with the unsupported error:
the whole call returns the error, not truncated data. Stated for a read
that starts at such a frame (open stream, in-range position, no cache
window over the position). -/
theorem c8_unsupported_encoder_tag (zlib : Bytes → Option Bytes) (s : CascFile)
    (span : CascFileSpan) (frame : CascFileFrame) (t bufLen : Nat)
    (hopen : s.is_open = true)
    (hpos : s.internal_position < s.internal_size)
    (hncov : cacheCovers s s.internal_position = false)
    (hspan : findSpan s.spans s.internal_position = some span)
    (hframe : findFrame span.frames s.internal_position = some frame)
    (htag : readExact span.archive frame.archive_offset 1 = .ok [t])
    (hN : t ≠ 0x4E) (hZ : t ≠ 0x5A)
    (hbuf : bufLen ≠ 0) :
    cascFileReadRun zlib s bufLen = .error .unsupportedBlockType := by
  have hload : loadFrameCache zlib span.archive frame = .error .unsupportedBlockType := by
    simp only [loadFrameCache, htag]
    have htag' : blockTableEncoderTypeFrom (([t] : Bytes).getD 0 0) =
        blockTableEncoderTypeFrom t := by simp [List.getD]
    rw [htag']
    unfold blockTableEncoderTypeFrom
    rw [if_neg hN, if_neg hZ]
    by_cases hE : t = 0x45 <;> simp [hE]
  unfold cascFileReadRun cascFileRead
  rw [hopen]
  rw [if_neg (by simp)]
  rw [if_neg (show ¬(s.internal_position ≥ s.internal_size) from by omega)]
  rw [show 2 * bufLen + 2 = (2 * bufLen + 1) + 1 from rfl]
  simp only [cascFileReadLoop]
  rw [if_neg hbuf]
  simp only [cacheStep_not_covered s bufLen s.internal_position bufLen 0 [] hncov]
  rw [if_neg hbuf]
  rw [if_neg (show ¬(s.internal_size ≤ s.internal_position) from by omega)]
  simp only [frameStep, hspan, hframe, hload]

/-- C8 witness: reading a one-frame file whose frame is tagged `E`
(encrypted, 0x45) fails with the unsupported error. -/
theorem c8_witness :
    cascFileReadRun (fun _ => none)
        (cascFileNew [⟨[0x45, 1, 2, 3, 4], 0, 4, 0, [⟨0, 4, 0, 5, 4⟩]⟩] 4) 4 =
      .error .unsupportedBlockType :=
  c8_unsupported_encoder_tag (fun _ => none)
    (cascFileNew [⟨[0x45, 1, 2, 3, 4], 0, 4, 0, [⟨0, 4, 0, 5, 4⟩]⟩] 4)
    ⟨[0x45, 1, 2, 3, 4], 0, 4, 0, [⟨0, 4, 0, 5, 4⟩]⟩ ⟨0, 4, 0, 5, 4⟩ 0x45 4
    rfl (by decide) rfl rfl rfl rfl (by decide) (by decide) (by decide)

/-- C5 (amended): when `read` decodes a ZLib-tagged frame, it reads
exactly the `encoded_size − 1` bytes following the tag byte and installs
the full decompressed stream of those bytes as the cache; the cache length
equals the frame's `content_size` exactly when decompression yields
`content_size` bytes — the source performs no such check. -/
theorem c5_zlib_frame_decode (zlib : Bytes → Option Bytes) (archive : Bytes)
    (frame : CascFileFrame)
    (henc : 1 ≤ frame.encoded_size) (hencU : frame.encoded_size < U64)
    (htag : readExact archive frame.archive_offset 1 = .ok [0x5A])
    (hbound : frame.archive_offset + 1 + (frame.encoded_size - 1) ≤ archive.length) :
    (∀ d, zlib ((archive.drop (frame.archive_offset + 1)).take (frame.encoded_size - 1)) =
        some d → loadFrameCache zlib archive frame = .ok d) ∧
      (zlib ((archive.drop (frame.archive_offset + 1)).take (frame.encoded_size - 1)) =
        none → loadFrameCache zlib archive frame = .error .zlibFailed) := by
  have hU : U64 = 18446744073709551616 := by norm_num [U64]
  have hn : (frame.encoded_size + (U64 - 1)) % U64 = frame.encoded_size - 1 := by
    rw [hU] at hencU ⊢
    omega
  have hpayload : readExact archive (frame.archive_offset + 1)
      ((frame.encoded_size + (U64 - 1)) % U64) =
      .ok ((archive.drop (frame.archive_offset + 1)).take (frame.encoded_size - 1)) := by
    rw [hn]
    unfold readExact
    rw [if_pos hbound]
  have hbody : loadFrameCache zlib archive frame =
      match zlib ((archive.drop (frame.archive_offset + 1)).take (frame.encoded_size - 1)) with
      | some d => .ok d
      | none => .error .zlibFailed := by
    unfold loadFrameCache
    rw [htag, hpayload]
    rfl
  constructor
  · intro d hd
    rw [hbody, hd]
  · intro hd
    rw [hbody, hd]

/-- C5 counterexample: the claim as stated says the cache buffer's length
is exactly `content_size`. Decoding a genuine ZLib stream (the deflate of
two `0xAA` bytes) inside a frame that declares `content_size = 4`
succeeds, the read returns normally, and the installed cache holds 2
bytes, not 4 — the source never compares the decompressed length with
`content_size`. -/
theorem c5_counterexample :
    loadFrameCache
        (fun b => if b = [120, 156, 91, 181, 10, 0, 2, 0, 1, 85] then some [170, 170] else none)
        [0x5A, 120, 156, 91, 181, 10, 0, 2, 0, 1, 85] ⟨0, 4, 0, 11, 4⟩ = .ok [170, 170] ∧
      ([170, 170] : Bytes).length ≠ (⟨0, 4, 0, 11, 4⟩ : CascFileFrame).content_size ∧
      (cascFileReadRun
          (fun b => if b = [120, 156, 91, 181, 10, 0, 2, 0, 1, 85] then some [170, 170] else none)
          (cascFileNew
            [⟨[0x5A, 120, 156, 91, 181, 10, 0, 2, 0, 1, 85], 0, 4, 0, [⟨0, 4, 0, 11, 4⟩]⟩] 4)
          1).map (fun r => (r.1, r.2.2.cache)) = .ok ([170], some [170, 170]) := by
  refine ⟨by rfl, by decide, by rfl⟩

/-- C5 witness: the amended decode theorem applied to the same concrete
ZLib frame. -/
theorem c5_witness :
    loadFrameCache
        (fun b => if b = [120, 156, 91, 181, 10, 0, 2, 0, 1, 85] then some [170, 170] else none)
        [0x5A, 120, 156, 91, 181, 10, 0, 2, 0, 1, 85] ⟨0, 4, 0, 11, 4⟩ = .ok [170, 170] :=
  (c5_zlib_frame_decode
      (fun b => if b = [120, 156, 91, 181, 10, 0, 2, 0, 1, 85] then some [170, 170] else none)
      [0x5A, 120, 156, 91, 181, 10, 0, 2, 0, 1, 85] ⟨0, 4, 0, 11, 4⟩
      (by decide) (by decide) rfl (by decide)).1 [170, 170] (by decide)

/-! ### Base64 facts and the key-size mismatch (C1) -/

/-- No alphabet character is the padding byte `=` (61). -/
theorem b64Char_ne_61 (n : Nat) : b64Char n ≠ 61 := by
  unfold b64Char
  split_ifs <;> omega

/-- Length of a standard base64 encoding: `4 * ceil(len / 3)`. -/
theorem base64Encode_length : ∀ l : Bytes, (base64Encode l).length = 4 * ((l.length + 2) / 3)
  | [] => by simp [base64Encode]
  | [a] => by simp [base64Encode]
  | [a, b] => by simp [base64Encode]
  | a :: b :: c :: rest => by
    simp only [base64Encode, List.length_cons, List.length_append, base64Encode_length rest]
    omega

/-- An encoding of a byte string whose length is 1 or 2 modulo 3 contains
the padding byte. -/
theorem base64Encode_padding_mem :
    ∀ l : Bytes, l.length % 3 = 1 ∨ l.length % 3 = 2 → 61 ∈ base64Encode l
  | [], h => by simp at h
  | [a], _ => by simp [base64Encode]
  | [a, b], _ => by simp [base64Encode]
  | a :: b :: c :: rest, h => by
    have h' : rest.length % 3 = 1 ∨ rest.length % 3 = 2 := by
      simp only [List.length_cons] at h
      omega
    have hrec := base64Encode_padding_mem rest h'
    simp only [base64Encode, List.mem_cons]
    exact Or.inr (Or.inr (Or.inr (Or.inr hrec)))

/-- An encoding of a byte string whose length is a multiple of 3 contains
no padding byte. -/
theorem base64Encode_no_padding :
    ∀ l : Bytes, l.length % 3 = 0 → 61 ∉ base64Encode l
  | [], _ => by simp [base64Encode]
  | [a], h => by simp at h
  | [a, b], h => by simp at h
  | a :: b :: c :: rest, h => by
    have h' : rest.length % 3 = 0 := by
      simp only [List.length_cons] at h
      omega
    have hrec := base64Encode_no_padding rest h'
    simp only [base64Encode, List.mem_cons, not_or]
    exact ⟨fun hx => b64Char_ne_61 _ hx.symm, fun hx => b64Char_ne_61 _ hx.symm,
      fun hx => b64Char_ne_61 _ hx.symm, fun hx => b64Char_ne_61 _ hx.symm, hrec⟩

/-- Base64 encodings of keys of length ≠ 9 never collide with encodings
of 9-byte keys: lengths 7 and 8 force a padding byte that a 9-byte
encoding never contains, and any other length yields a different encoded
length. -/
theorem base64Encode_ne_of_ne_nine (k9 ek : Bytes) (h9 : k9.length = 9)
    (hne : ek.length ≠ 9) : base64Encode ek ≠ base64Encode k9 := by
  intro heq
  by_cases hl : ek.length = 7 ∨ ek.length = 8
  · have hmem : 61 ∈ base64Encode ek := base64Encode_padding_mem ek (by omega)
    have hnot : 61 ∉ base64Encode k9 := base64Encode_no_padding k9 (by omega)
    rw [heq] at hmem
    exact hnot hmem
  · have hlen : (base64Encode ek).length ≠ (base64Encode k9).length := by
      rw [base64Encode_length, base64Encode_length]
      omega
    exact hlen (congrArg List.length heq)

/-- A lookup misses when no stored key equals the probe. -/
theorem entriesGet_none (entries : List (List Nat × CascKeyMappingTableEntry))
    (key : List Nat) (h : ∀ kv ∈ entries, kv.1 ≠ key) : entriesGet entries key = none := by
  unfold entriesGet
  have hfind : entries.find? (fun kv => kv.1 == key) = none := by
    rw [List.find?_eq_none]
    intro kv hkv
    simp only [beq_iff_eq]
    exact h kv hkv
  rw [hfind]
  rfl

/-- C1 counterexample: the claim as stated says `load_files` reports
*every* TVFS file entry non-local under a key-size mismatch, but a file
entry whose span list is empty (`span_count = 0` in the VFS table)
performs no lookups at all, and `load_files` leaves it `is_local = true`
(with size 0). -/
theorem c1_counterexample :
    loadFiles [] [⟨[97], []⟩] = [⟨[97], 0, true⟩] ∧
      (⟨[97], 0, true⟩ : CascFileInfo).is_local ≠ false := by
  exact ⟨rfl, by decide⟩

/-- C1 (amended): on a storage whose TVFS header has
`encoding_key_size ≠ 9`, every span lookup against the shared IDX map
misses — the map is keyed by the standard base64 of 9-byte IDX keys while
each span's key is the base64 of its full `encoding_key_size`-byte CFT
key — so `load_files` reports every TVFS file entry *that has at least
one span* with `is_local = false` and `file_size = 0`, and `open_file`
returns a stream with zero spans whose `size()` is 0. -/
theorem c1_key_size_mismatch (entries : List (List Nat × CascKeyMappingTableEntry))
    (fileEntries : List Entry) (ksize : Nat) (hks : ksize ≠ 9)
    (hmap : ∀ kv ∈ entries, ∃ k : Bytes, k.length = 9 ∧ kv.1 = base64Encode k)
    (hspans : ∀ e ∈ fileEntries, ∀ sp ∈ e.spans,
      ∃ ek : Bytes, ek.length = ksize ∧ sp = spanInfoNewWithEncodingKey ek)
    (hnonempty : ∀ e ∈ fileEntries, e.spans ≠ []) :
    (∀ info ∈ loadFiles entries fileEntries,
      info.is_local = false ∧ info.file_size = 0) ∧
      (∀ e ∈ fileEntries, ∀ loadSpan,
        openFile entries loadSpan e = .ok (cascFileNew [] 0) ∧
          cascFileSize (cascFileNew [] 0) = 0) := by
  have hmiss : ∀ e ∈ fileEntries, ∀ sp ∈ e.spans,
      entriesGet entries sp.base64_encoding_key = none := by
    intro e he sp hsp
    obtain ⟨ek, hlen, hspeq⟩ := hspans e he sp hsp
    rw [hspeq]
    show entriesGet entries (base64Encode ek) = none
    apply entriesGet_none
    intro kv hkv
    obtain ⟨k, hk9, hkey⟩ := hmap kv hkv
    rw [hkey]
    exact (base64Encode_ne_of_ne_nine k ek hk9 (by omega)).symm
  constructor
  · intro info hinfo
    rw [loadFiles, List.mem_map] at hinfo
    obtain ⟨e, he, rfl⟩ := hinfo
    cases hsp : e.spans with
    | nil => exact absurd hsp (hnonempty e he)
    | cons s rest =>
      have hm : entriesGet entries s.base64_encoding_key = none :=
        hmiss e he s (by rw [hsp]; exact List.mem_cons_self s rest)
      simp [loadFilesSpanLoop, hm]
  · intro e he loadSpan
    have hall : ∀ sps : List SpanInfo,
        (∀ sp ∈ sps, entriesGet entries sp.base64_encoding_key = none) →
        ∀ vo, openFileSpans entries loadSpan sps vo = .ok ([], vo) := by
      intro sps
      induction sps with
      | nil => intro _ vo; rfl
      | cons s rest ihs =>
        intro hm vo
        have h1 := hm s (List.mem_cons_self s rest)
        simp only [openFileSpans, h1]
        exact ihs (fun sp hsp => hm sp (List.mem_cons_of_mem s hsp)) vo
    have hspans0 := hall e.spans (hmiss e he) 0
    unfold openFile
    rw [hspans0]
    exact ⟨rfl, rfl⟩

/-- C1 witness: the amended theorem at a concrete one-entry IDX map
(keyed by the encoding of a 9-byte key) and one file entry with a single
16-byte span key. -/
theorem c1_witness :
    (∀ info ∈ loadFiles [(base64Encode [1, 2, 3, 4, 5, 6, 7, 8, 9], ⟨[1, 2, 3, 4, 5, 6, 7, 8, 9], 0, 7, 0⟩)]
        [⟨[97], [spanInfoNewWithEncodingKey [1, 2, 3, 4, 5, 6, 7, 8, 9, 10, 11, 12, 13, 14, 15, 16]]⟩],
      info.is_local = false ∧ info.file_size = 0) ∧
      (∀ e ∈ ([⟨[97], [spanInfoNewWithEncodingKey [1, 2, 3, 4, 5, 6, 7, 8, 9, 10, 11, 12, 13, 14, 15, 16]]⟩] : List Entry),
        ∀ loadSpan,
        openFile [(base64Encode [1, 2, 3, 4, 5, 6, 7, 8, 9], ⟨[1, 2, 3, 4, 5, 6, 7, 8, 9], 0, 7, 0⟩)]
            loadSpan e = .ok (cascFileNew [] 0) ∧
          cascFileSize (cascFileNew [] 0) = 0) :=
  c1_key_size_mismatch
    [(base64Encode [1, 2, 3, 4, 5, 6, 7, 8, 9], ⟨[1, 2, 3, 4, 5, 6, 7, 8, 9], 0, 7, 0⟩)]
    [⟨[97], [spanInfoNewWithEncodingKey [1, 2, 3, 4, 5, 6, 7, 8, 9, 10, 11, 12, 13, 14, 15, 16]]⟩]
    16 (by decide)
    (by
      intro kv hkv
      simp only [List.mem_singleton] at hkv
      subst hkv
      exact ⟨[1, 2, 3, 4, 5, 6, 7, 8, 9], rfl, rfl⟩)
    (by
      intro e he sp hsp
      simp only [List.mem_singleton] at he
      subst he
      simp only [List.mem_singleton] at hsp
      subst hsp
      exact ⟨[1, 2, 3, 4, 5, 6, 7, 8, 9, 10, 11, 12, 13, 14, 15, 16], rfl, rfl⟩)
    (by
      intro e he
      simp only [List.mem_singleton] at he
      subst he
      simp)

/-! ### Path-table cursor accounting (C4) -/

/-- A successful peek means the cursor is strictly inside the data. -/
theorem peekByte_ok_lt (cur : ByteCursor) (b : Nat) (h : peekByte cur = .ok b) :
    cur.pos < cur.data.length := by
  unfold peekByte at h
  by_cases hc : cur.pos < cur.data.length
  · exact hc
  · rw [if_neg hc] at h
    simp at h

/-- `read_chars` keeps the cursor on the same data, within bounds. -/
theorem readCharsLoop_bounds : ∀ (count : Nat) (cur : ByteCursor) (acc out : Bytes)
    (cur' : ByteCursor), cur.pos ≤ cur.data.length →
    readCharsLoop count cur acc = .ok (out, cur') →
    cur'.data = cur.data ∧ cur'.pos ≤ cur.data.length
  | 0, cur, acc, out, cur', hle, h => by
    simp only [readCharsLoop, Except.ok.injEq, Prod.mk.injEq] at h
    obtain ⟨-, rfl⟩ := h
    exact ⟨rfl, hle⟩
  | count + 1, cur, acc, out, cur', hle, h => by
    simp only [readCharsLoop] at h
    by_cases hlt : cur.pos < cur.data.length
    · rw [if_pos hlt] at h
      cases hcl : charLen (cur.data.getD cur.pos 0) with
      | none => rw [hcl] at h; simp at h
      | some len =>
        simp only [hcl] at h
        by_cases hb : cur.pos + len ≤ cur.data.length
        · rw [if_pos hb] at h
          by_cases hv : validUtf8Char ((cur.data.drop cur.pos).take len) = true
          · rw [if_pos hv] at h
            have hres := readCharsLoop_bounds count { cur with pos := cur.pos + len }
              (acc ++ (cur.data.drop cur.pos).take len) out cur' hb h
            exact hres
          · rw [if_neg hv] at h
            simp at h
        · rw [if_neg hb] at h
          simp at h
    · rw [if_neg hlt] at h
      simp only [Except.ok.injEq, Prod.mk.injEq] at h
      obtain ⟨-, rfl⟩ := h
      exact ⟨rfl, hle⟩

/-- `read_i32` advances by exactly four in-bounds bytes. -/
theorem readI32BE_ok_bounds (cur : ByteCursor) (v : Int) (cur' : ByteCursor)
    (h : readI32BE cur = .ok (v, cur')) :
    cur'.data = cur.data ∧ cur'.pos ≤ cur.data.length := by
  unfold readI32BE at h
  by_cases hb : cur.pos + 4 ≤ cur.data.length
  · rw [if_pos hb] at h
    simp only [Except.ok.injEq, Prod.mk.injEq] at h
    obtain ⟨-, rfl⟩ := h
    exact ⟨rfl, hb⟩
  · rw [if_neg hb] at h
    simp at h

/-- Step-4 bound: the node parse's last step keeps the cursor in bounds
on the same data. -/
theorem pathNodeStep4_bounds (name : Bytes) (flags3 buf3 : Nat) (cur3 : ByteCursor)
    (node : PathTableNode) (cur' : ByteCursor)
    (hle : cur3.pos ≤ cur3.data.length)
    (h : pathNodeStep4 name flags3 buf3 cur3 = .ok (node, cur')) :
    cur'.data = cur3.data ∧ cur'.pos ≤ cur3.data.length := by
  unfold pathNodeStep4 at h
  by_cases hff : buf3 = 0xFF
  · rw [if_pos hff] at h
    cases hi : readI32BE (skip1 cur3) with
    | error e => rw [hi] at h; simp at h
    | ok res =>
      obtain ⟨v, cur4⟩ := res
      simp only [hi, Except.ok.injEq, Prod.mk.injEq] at h
      obtain ⟨-, rfl⟩ := h
      have := readI32BE_ok_bounds (skip1 cur3) v cur4 hi
      exact this
  · rw [if_neg hff] at h
    simp only [Except.ok.injEq, Prod.mk.injEq] at h
    obtain ⟨-, rfl⟩ := h
    exact ⟨rfl, hle⟩

/-- Step-3 bound. -/
theorem pathNodeStep3_bounds (flags1 : Nat) (name : Bytes) (buf2 : Nat) (cur2 : ByteCursor)
    (node : PathTableNode) (cur' : ByteCursor)
    (hle : cur2.pos ≤ cur2.data.length)
    (h : pathNodeStep3 flags1 name buf2 cur2 = .ok (node, cur')) :
    cur'.data = cur2.data ∧ cur'.pos ≤ cur2.data.length := by
  unfold pathNodeStep3 at h
  by_cases h0 : buf2 = 0
  · rw [if_pos h0] at h
    cases hp : peekByte (skip1 cur2) with
    | error e => rw [hp] at h; simp at h
    | ok b3 =>
      simp only [hp] at h
      have hlt := peekByte_ok_lt (skip1 cur2) b3 hp
      exact pathNodeStep4_bounds name (flags1 ||| pathSeparatorPost) b3 (skip1 cur2)
        node cur' (Nat.le_of_lt hlt) h
  · rw [if_neg h0] at h
    exact pathNodeStep4_bounds name flags1 buf2 cur2 node cur' hle h

/-- Step-2 bound. -/
theorem pathNodeStep2_bounds (flags1 buf1 : Nat) (cur1 : ByteCursor)
    (node : PathTableNode) (cur' : ByteCursor)
    (hlt : cur1.pos < cur1.data.length)
    (h : pathNodeStep2 flags1 buf1 cur1 = .ok (node, cur')) :
    cur'.data = cur1.data ∧ cur'.pos ≤ cur1.data.length := by
  unfold pathNodeStep2 at h
  by_cases hname : buf1 < 0x7F ∧ buf1 ≠ 0xFF
  · rw [if_pos hname] at h
    cases hrc : readChars (skip1 cur1) buf1 with
    | error e => rw [hrc] at h; simp at h
    | ok res =>
      obtain ⟨name, cur2⟩ := res
      simp only [hrc] at h
      have hb2 := readCharsLoop_bounds buf1 (skip1 cur1) [] name cur2 hlt hrc
      obtain ⟨hd2, hp2⟩ := hb2
      cases hp : peekByte cur2 with
      | error e => rw [hp] at h; simp at h
      | ok b2 =>
        simp only [hp] at h
        have := pathNodeStep3_bounds flags1 name b2 cur2 node cur' (by rw [hd2]; exact hp2) h
        rw [hd2] at this
        exact this
  · rw [if_neg hname] at h
    exact pathNodeStep3_bounds flags1 [] buf1 cur1 node cur' (Nat.le_of_lt hlt) h

/-- A successfully parsed path-table node leaves the cursor on the same
data, within bounds. -/
theorem parsePathNode_bounds (cur : ByteCursor) (node : PathTableNode) (cur' : ByteCursor)
    (h : parsePathNode cur = .ok (node, cur')) :
    cur'.data = cur.data ∧ cur'.pos ≤ cur.data.length := by
  unfold parsePathNode at h
  cases hp0 : peekByte cur with
  | error e => rw [hp0] at h; simp at h
  | ok b0 =>
    simp only [hp0] at h
    have hlt0 := peekByte_ok_lt cur b0 hp0
    by_cases h0 : b0 = 0
    · rw [if_pos h0] at h
      cases hp1 : peekByte (skip1 cur) with
      | error e => rw [hp1] at h; simp at h
      | ok b1 =>
        simp only [hp1] at h
        have hlt1 := peekByte_ok_lt (skip1 cur) b1 hp1
        exact pathNodeStep2_bounds pathSeparatorPre b1 (skip1 cur) node cur' hlt1 h
    · rw [if_neg h0] at h
      exact pathNodeStep2_bounds 0 b0 cur node cur' hlt0 h

/-- `add_entry` never touches the path-table cursor. -/
theorem addEntry_pathCur (st : TVFSState) (name : Bytes) (p : Nat) (st2 : TVFSState)
    (h : addEntry st name p = .ok st2) : st2.pathCur = st.pathCur := by
  unfold addEntry at h
  by_cases hb : p < st.vfsData.length
  · rw [if_pos hb] at h
    cases hsp : addEntrySpans st.cftData st.encodingKeySize st.cftTableSize
        (st.vfsData.getD p 0) ⟨st.vfsData, p + 1⟩ with
    | error e => rw [hsp] at h; simp at h
    | ok res =>
      obtain ⟨spans, vcur⟩ := res
      simp only [hsp, Except.ok.injEq] at h
      subst h
      rfl
  · rw [if_neg hb] at h
    simp at h

/-- The traversal invariant: a successful `parse(end, builder)` leaves
the path cursor on the same data, never past the data's end, and at or
past `end` (the loop exits only when `position ≥ end`). -/
theorem tvfsParseLoop_bounds : ∀ (fuel : Nat) (st : TVFSState) (endPos : Nat)
    (builder : Bytes) (cs : Nat) (st' : TVFSState),
    st.pathCur.pos ≤ st.pathCur.data.length →
    tvfsParseLoop fuel st endPos builder cs = .ok st' →
    st'.pathCur.data = st.pathCur.data ∧ st'.pathCur.pos ≤ st.pathCur.data.length ∧
      endPos ≤ st'.pathCur.pos := by
  intro fuel
  induction fuel with
  | zero =>
    intro st endPos builder cs st' _ h
    simp [tvfsParseLoop] at h
  | succ fuel ih =>
    intro st endPos builder cs st' hle h
    simp only [tvfsParseLoop] at h
    by_cases hlt : st.pathCur.pos < endPos
    case neg =>
      rw [if_neg hlt] at h
      simp only [Except.ok.injEq] at h
      subst h
      exact ⟨rfl, hle, by omega⟩
    case pos =>
      rw [if_pos hlt] at h
      cases hpn : parsePathNode st.pathCur with
      | error e => rw [hpn] at h; simp at h
      | ok res =>
        obtain ⟨node, cur'⟩ := res
        simp only [hpn] at h
        obtain ⟨hdata, hple⟩ := parsePathNode_bounds st.pathCur node cur' hpn
        have pre1 : ({ st with pathCur := cur' } : TVFSState).pathCur.pos ≤
            ({ st with pathCur := cur' } : TVFSState).pathCur.data.length := by
          show cur'.pos ≤ cur'.data.length
          rw [hdata]
          exact hple
        by_cases hval : hasFlag node.flags isNodeValue = true
        · rw [if_pos hval] at h
          cases hv : node.value with
          | none =>
            simp only [hv] at h
            obtain ⟨hd, hp, he⟩ := ih _ _ _ _ _ pre1 h
            refine ⟨?_, ?_, he⟩
            · rw [hd]; exact hdata
            · rw [← hdata]; exact hp
          | some val =>
            simp only [hv] at h
            by_cases hhigh : intToU32 val &&& 0x80000000 ≠ 0
            · rw [if_pos hhigh] at h
              split at h
              · simp at h
              · rename_i st2 hrec1
                obtain ⟨hd1, hp1, -⟩ := ih _ _ _ _ _ pre1 hrec1
                have pre2 : st2.pathCur.pos ≤ st2.pathCur.data.length := by
                  rw [hd1]
                  exact hp1
                obtain ⟨hd2, hp2, he2⟩ := ih _ _ _ _ _ pre2 h
                refine ⟨?_, ?_, he2⟩
                · rw [hd2, hd1]; exact hdata
                · rw [← hdata]
                  calc st'.pathCur.pos ≤ st2.pathCur.data.length := hp2
                    _ = cur'.data.length := by rw [hd1]
            · rw [if_neg hhigh] at h
              split at h
              · simp at h
              · rename_i st2 hadd
                have hpc := addEntry_pathCur _ _ _ _ hadd
                have pre2 : st2.pathCur.pos ≤ st2.pathCur.data.length := by
                  rw [hpc]
                  exact pre1
                obtain ⟨hd2, hp2, he2⟩ := ih _ _ _ _ _ pre2 h
                refine ⟨?_, ?_, he2⟩
                · rw [hd2, hpc]; exact hdata
                · rw [← hdata]
                  calc st'.pathCur.pos ≤ st2.pathCur.data.length := hp2
                    _ = cur'.data.length := by rw [hpc]
        · rw [if_neg hval] at h
          obtain ⟨hd, hp, he⟩ := ih _ _ _ _ _ pre1 h
          refine ⟨?_, ?_, he⟩
          · rw [hd]; exact hdata
          · rw [← hdata]; exact hp

/-- C4: when the top-level parse of `TVFSRootHandler::new` (over the whole
path table, from position 0) returns successfully, the path-table cursor
stands exactly at the table's byte end: the traversal consumed exactly
`path_table_size` bytes. -/
theorem c4_path_table_consumed (fuel : Nat) (st st' : TVFSState)
    (hstart : st.pathCur.pos = 0)
    (h : tvfsParse fuel st = .ok st') :
    st'.pathCur.pos = st.pathCur.data.length ∧ st'.pathCur.data = st.pathCur.data := by
  unfold tvfsParse at h
  obtain ⟨hdata, hle, hge⟩ := tvfsParseLoop_bounds fuel st
    (st.pathCur.pos + st.pathCur.data.length) [] 0 st' (by omega) h
  exact ⟨by omega, hdata⟩

/-- C4 witness: a concrete five-byte path table holding one value node
(`0xFF` then a zero `i32`), a VFS table whose entry has zero spans; the
parse succeeds and the cursor ends exactly at byte 5 of 5. -/
theorem c4_witness :
    (tvfsParse 4 ⟨⟨[0xFF, 0, 0, 0, 0], 0⟩, [0], [], 16, 0, []⟩ =
        .ok ⟨⟨[0xFF, 0, 0, 0, 0], 5⟩, [0], [], 16, 0, [⟨[], []⟩]⟩) ∧
      (⟨⟨[0xFF, 0, 0, 0, 0], 5⟩, [0], [], 16, 0, [⟨[], []⟩]⟩ : TVFSState).pathCur.pos =
          (⟨⟨[0xFF, 0, 0, 0, 0], 0⟩, [0], [], 16, 0, []⟩ : TVFSState).pathCur.data.length ∧
        (⟨⟨[0xFF, 0, 0, 0, 0], 5⟩, [0], [], 16, 0, [⟨[], []⟩]⟩ : TVFSState).pathCur.data =
          (⟨⟨[0xFF, 0, 0, 0, 0], 0⟩, [0], [], 16, 0, []⟩ : TVFSState).pathCur.data :=
  ⟨by rfl,
    c4_path_table_consumed 4 ⟨⟨[0xFF, 0, 0, 0, 0], 0⟩, [0], [], 16, 0, []⟩
      ⟨⟨[0xFF, 0, 0, 0, 0], 5⟩, [0], [], 16, 0, [⟨[], []⟩]⟩ rfl (by rfl)⟩

end CascRs
